import Mathlib

/-!
Verification of the FabricDraper cloth solver (src/components/Cloth.tsx).

The embedding models the flat Float32Array position buffers as functions
from flat indices to real numbers (particle i occupies indices 3i, 3i+1,
3i+2 for its x, y, z coordinates), mirroring the source arithmetic over
the reals with explicit Real.sqrt where the source calls Math.sqrt.
-/

namespace FabricDraper

/-- Pointwise update of a flat buffer, mirroring a single array write. -/
def upd (f : ℕ → ℝ) (i : ℕ) (v : ℝ) : ℕ → ℝ := fun j => if j = i then v else f j

theorem upd_eq (f : ℕ → ℝ) (i : ℕ) (v : ℝ) : upd f i v i = v := by simp [upd]

theorem upd_ne (f : ℕ → ℝ) (i : ℕ) (v : ℝ) {j : ℕ} (h : j ≠ i) : upd f i v j = f j := by
  simp [upd, h]

theorem upd_self (f : ℕ → ℝ) (i : ℕ) : upd f i (f i) = f := by
  funext j
  by_cases h : j = i <;> simp [upd, h]

/-- A distance constraint as stored in the flat lists of Cloth.tsx:
particle index 1, particle index 2, rest length. -/
abbrev Constraint := ℕ × ℕ × ℝ

/-- Grid index helper, mirroring getIdx in Cloth.tsx. -/
def getIdx (x y w : ℕ) : ℕ := y * w + x

/-- One constraint relaxation, mirroring the loop body of solveList in
Cloth.tsx (lines 294-332): read both endpoints, compute the distance,
skip when it is below 1e-4, otherwise apply the symmetric correction. -/
noncomputable def solveStep (pos : ℕ → ℝ) (halfStrength : ℝ) (c : Constraint) : ℕ → ℝ :=
  let i1 := c.1
  let i2 := c.2.1
  let restDist := c.2.2
  let idx1 := i1 * 3
  let idx2 := i2 * 3
  let x1 := pos idx1
  let y1 := pos (idx1 + 1)
  let z1 := pos (idx1 + 2)
  let x2 := pos idx2
  let y2 := pos (idx2 + 1)
  let z2 := pos (idx2 + 2)
  let dx := x2 - x1
  let dy := y2 - y1
  let dz := z2 - z1
  let dist := Real.sqrt (dx * dx + dy * dy + dz * dz)
  if dist < 0.0001 then pos
  else
    let diff := (dist - restDist) / dist
    let correction := diff * halfStrength
    let offsetX := dx * correction
    let offsetY := dy * correction
    let offsetZ := dz * correction
    -- The six sequential writes read x1..z2 that were loaded before any
    -- write; the only possible aliasing (i1 = i2) forces dx = dy = dz = 0
    -- and is therefore always taken care of by the skip branch above.
    upd (upd (upd (upd (upd (upd pos
      idx1 (x1 + offsetX)) (idx1 + 1) (y1 + offsetY)) (idx1 + 2) (z1 + offsetZ))
      idx2 (x2 - offsetX)) (idx2 + 1) (y2 - offsetY)) (idx2 + 2) (z2 - offsetZ)

/-- One pass of the solver over a constraint list, mirroring solveList in
Cloth.tsx: the half strength is computed once and every packed
(i1, i2, restDist) triple is processed in list order. -/
noncomputable def solveList (list : List Constraint) (pos : ℕ → ℝ) (strength : ℝ) : ℕ → ℝ :=
  list.foldl (fun p c => solveStep p (strength * 0.5) c) pos

/-- Squared distance between the two endpoints of a constraint. -/
noncomputable def pairDistSq (pos : ℕ → ℝ) (c : Constraint) : ℝ :=
  let dx := pos (c.2.1 * 3) - pos (c.1 * 3)
  let dy := pos (c.2.1 * 3 + 1) - pos (c.1 * 3 + 1)
  let dz := pos (c.2.1 * 3 + 2) - pos (c.1 * 3 + 2)
  dx * dx + dy * dy + dz * dz

/-- Euclidean distance between the two endpoints of a constraint, the
quantity the solver compares against the rest length. -/
noncomputable def pairDist (pos : ℕ → ℝ) (c : Constraint) : ℝ :=
  Real.sqrt (pairDistSq pos c)

/-- The scalar correction factor applied by one constraint relaxation at
half strength h: (dist - restLength) / dist * h. -/
noncomputable def corrOf (pos : ℕ → ℝ) (h : ℝ) (c : Constraint) : ℝ :=
  (pairDist pos c - c.2.2) / pairDist pos c * h

theorem solveStep_skip (pos : ℕ → ℝ) (h : ℝ) (c : Constraint)
    (hlt : pairDist pos c < 0.0001) : solveStep pos h c = pos := by
  have hlt' : Real.sqrt
      ((pos (c.2.1 * 3) - pos (c.1 * 3)) * (pos (c.2.1 * 3) - pos (c.1 * 3)) +
        (pos (c.2.1 * 3 + 1) - pos (c.1 * 3 + 1)) * (pos (c.2.1 * 3 + 1) - pos (c.1 * 3 + 1)) +
        (pos (c.2.1 * 3 + 2) - pos (c.1 * 3 + 2)) * (pos (c.2.1 * 3 + 2) - pos (c.1 * 3 + 2))) <
      0.0001 := hlt
  simp only [solveStep]
  rw [if_pos hlt']

set_option maxHeartbeats 1000000 in
theorem solveStep_apply (pos : ℕ → ℝ) (h : ℝ) (c : Constraint)
    (h12 : c.1 ≠ c.2.1) (hnd : ¬ pairDist pos c < 0.0001) (n : ℕ) :
    solveStep pos h c n =
      if n = c.1 * 3 then pos n + (pos (c.2.1 * 3) - pos (c.1 * 3)) * corrOf pos h c
      else if n = c.1 * 3 + 1 then
        pos n + (pos (c.2.1 * 3 + 1) - pos (c.1 * 3 + 1)) * corrOf pos h c
      else if n = c.1 * 3 + 2 then
        pos n + (pos (c.2.1 * 3 + 2) - pos (c.1 * 3 + 2)) * corrOf pos h c
      else if n = c.2.1 * 3 then pos n - (pos (c.2.1 * 3) - pos (c.1 * 3)) * corrOf pos h c
      else if n = c.2.1 * 3 + 1 then
        pos n - (pos (c.2.1 * 3 + 1) - pos (c.1 * 3 + 1)) * corrOf pos h c
      else if n = c.2.1 * 3 + 2 then
        pos n - (pos (c.2.1 * 3 + 2) - pos (c.1 * 3 + 2)) * corrOf pos h c
      else pos n := by
  have hnd' : ¬ Real.sqrt
      ((pos (c.2.1 * 3) - pos (c.1 * 3)) * (pos (c.2.1 * 3) - pos (c.1 * 3)) +
        (pos (c.2.1 * 3 + 1) - pos (c.1 * 3 + 1)) * (pos (c.2.1 * 3 + 1) - pos (c.1 * 3 + 1)) +
        (pos (c.2.1 * 3 + 2) - pos (c.1 * 3 + 2)) * (pos (c.2.1 * 3 + 2) - pos (c.1 * 3 + 2))) <
      0.0001 := hnd
  simp only [solveStep]
  rw [if_neg hnd']
  by_cases h1 : n = c.1 * 3
  · subst h1
    rw [upd_ne _ _ _ (show c.1 * 3 ≠ c.2.1 * 3 + 2 by omega),
      upd_ne _ _ _ (show c.1 * 3 ≠ c.2.1 * 3 + 1 by omega),
      upd_ne _ _ _ (show c.1 * 3 ≠ c.2.1 * 3 by omega),
      upd_ne _ _ _ (show c.1 * 3 ≠ c.1 * 3 + 2 by omega),
      upd_ne _ _ _ (show c.1 * 3 ≠ c.1 * 3 + 1 by omega), upd_eq]
    rw [if_pos rfl]
    simp only [corrOf, pairDist, pairDistSq]
    try ring
  · by_cases h2 : n = c.1 * 3 + 1
    · subst h2
      rw [upd_ne _ _ _ (show c.1 * 3 + 1 ≠ c.2.1 * 3 + 2 by omega),
        upd_ne _ _ _ (show c.1 * 3 + 1 ≠ c.2.1 * 3 + 1 by omega),
        upd_ne _ _ _ (show c.1 * 3 + 1 ≠ c.2.1 * 3 by omega),
        upd_ne _ _ _ (show c.1 * 3 + 1 ≠ c.1 * 3 + 2 by omega), upd_eq]
      rw [if_neg h1, if_pos rfl]
      simp only [corrOf, pairDist, pairDistSq]
      try ring
    · by_cases h3 : n = c.1 * 3 + 2
      · subst h3
        rw [upd_ne _ _ _ (show c.1 * 3 + 2 ≠ c.2.1 * 3 + 2 by omega),
          upd_ne _ _ _ (show c.1 * 3 + 2 ≠ c.2.1 * 3 + 1 by omega),
          upd_ne _ _ _ (show c.1 * 3 + 2 ≠ c.2.1 * 3 by omega), upd_eq]
        rw [if_neg h1, if_neg h2, if_pos rfl]
        simp only [corrOf, pairDist, pairDistSq]
        try ring
      · by_cases h4 : n = c.2.1 * 3
        · subst h4
          rw [upd_ne _ _ _ (show c.2.1 * 3 ≠ c.2.1 * 3 + 2 by omega),
            upd_ne _ _ _ (show c.2.1 * 3 ≠ c.2.1 * 3 + 1 by omega), upd_eq]
          rw [if_neg h1, if_neg h2, if_neg h3, if_pos rfl]
          simp only [corrOf, pairDist, pairDistSq]
          try ring
        · by_cases h5 : n = c.2.1 * 3 + 1
          · subst h5
            rw [upd_ne _ _ _ (show c.2.1 * 3 + 1 ≠ c.2.1 * 3 + 2 by omega), upd_eq]
            rw [if_neg h1, if_neg h2, if_neg h3, if_neg h4, if_pos rfl]
            simp only [corrOf, pairDist, pairDistSq]
            try ring
          · by_cases h6 : n = c.2.1 * 3 + 2
            · subst h6
              rw [upd_eq]
              rw [if_neg h1, if_neg h2, if_neg h3, if_neg h4, if_neg h5, if_pos rfl]
              simp only [corrOf, pairDist, pairDistSq]
              try ring
            · rw [upd_ne _ _ _ h6, upd_ne _ _ _ h5, upd_ne _ _ _ h4, upd_ne _ _ _ h3,
                upd_ne _ _ _ h2, upd_ne _ _ _ h1]
              rw [if_neg h1, if_neg h2, if_neg h3, if_neg h4, if_neg h5, if_neg h6]

theorem pairDist_nonneg (pos : ℕ → ℝ) (c : Constraint) : 0 ≤ pairDist pos c :=
  Real.sqrt_nonneg _

theorem pairDist_of_self (pos : ℕ → ℝ) (c : Constraint) (h : c.1 = c.2.1) :
    pairDist pos c = 0 := by
  simp [pairDist, pairDistSq, h]

/-- If the skip guard is off, the two particle indices must differ. -/
theorem ne_of_not_skip (pos : ℕ → ℝ) (c : Constraint) (hnd : ¬ pairDist pos c < 0.0001) :
    c.1 ≠ c.2.1 := by
  intro heq
  exact hnd (by rw [pairDist_of_self pos c heq]; norm_num)

/-- A constraint already exactly at its rest length leaves the buffer
untouched (corrections all vanish, or the skip guard fires). -/
theorem solveStep_at_rest (pos : ℕ → ℝ) (h : ℝ) (c : Constraint)
    (hrest : pairDist pos c = c.2.2) : solveStep pos h c = pos := by
  by_cases hlt : pairDist pos c < 0.0001
  · exact solveStep_skip pos h c hlt
  · funext n
    rw [solveStep_apply pos h c (ne_of_not_skip pos c hlt) hlt n]
    have hc : corrOf pos h c = 0 := by
      rw [corrOf, hrest, sub_self, zero_div, zero_mul]
    rw [hc]
    split_ifs <;> ring

/-- A pass over a list whose constraints are all at rest length is the
identity. -/
theorem solveList_at_rest (list : List Constraint) (pos : ℕ → ℝ) (s : ℝ)
    (hrest : ∀ c ∈ list, pairDist pos c = c.2.2) : solveList list pos s = pos := by
  induction list with
  | nil => rfl
  | cons c cs ih =>
    have h1 : solveStep pos (s * 0.5) c = pos :=
      solveStep_at_rest pos (s * 0.5) c (hrest c (List.mem_cons_self c cs))
    calc solveList (c :: cs) pos s
        = solveList cs (solveStep pos (s * 0.5) c) s := rfl
      _ = solveList cs pos s := by rw [h1]
      _ = pos := ih fun d hd => hrest d (List.mem_cons_of_mem c hd)

/-- At strength zero every correction vanishes, so the pass is the
identity. -/
theorem solveStep_zero (pos : ℕ → ℝ) (c : Constraint) : solveStep pos (0 * 0.5) c = pos := by
  by_cases hlt : pairDist pos c < 0.0001
  · exact solveStep_skip pos _ c hlt
  · funext n
    rw [solveStep_apply pos _ c (ne_of_not_skip pos c hlt) hlt n]
    have hc : corrOf pos (0 * 0.5) c = 0 := by rw [corrOf]; ring
    rw [hc]
    split_ifs <;> ring

theorem solveList_zero (list : List Constraint) (pos : ℕ → ℝ) :
    solveList list pos 0 = pos := by
  induction list with
  | nil => rfl
  | cons c cs ih =>
    calc solveList (c :: cs) pos 0
        = solveList cs (solveStep pos (0 * 0.5) c) 0 := rfl
      _ = solveList cs pos 0 := by rw [solveStep_zero]
      _ = pos := ih

/-- Evaluate a square root at a perfect square. -/
theorem sqrt_of_sq {a b : ℝ} (hb : 0 ≤ b) (h : b * b = a) : Real.sqrt a = b := by
  rw [← h, Real.sqrt_mul_self hb]

/-- Concrete buffer with particle 0 at the origin and particle 1 at
(2, 0, 0), used to instantiate hypotheses of general theorems. -/
noncomputable def posPair : ℕ → ℝ := fun n => if n = 3 then 2 else 0

/-- Concrete all-zero buffer: every particle at the origin. -/
def posZero : ℕ → ℝ := fun _ => 0

theorem posPair_dist : pairDist posPair (0, 1, (2 : ℝ)) = 2 := by
  rw [pairDist, pairDistSq]
  norm_num [posPair]
  exact sqrt_of_sq (by norm_num) (by norm_num)

/-- C1: a single constraint processed by a solve pass at strength s is
skipped (both particles untouched) when the pair distance is below 1e-4;
otherwise endpoint 1 moves by corr times the connecting vector, endpoint 2
by the exact opposite offset, where
corr = (dist - restLength) / dist * (s * 0.5), and no other buffer entry
changes. -/
theorem solve_pass_constraint_action (pos : ℕ → ℝ) (s : ℝ) (c : Constraint) :
    (pairDist pos c < 0.0001 → solveStep pos (s * 0.5) c = pos) ∧
    (¬ pairDist pos c < 0.0001 →
      (solveStep pos (s * 0.5) c (c.1 * 3) =
          pos (c.1 * 3) +
            (pos (c.2.1 * 3) - pos (c.1 * 3)) *
              ((pairDist pos c - c.2.2) / pairDist pos c * (s * 0.5))) ∧
      (solveStep pos (s * 0.5) c (c.1 * 3 + 1) =
          pos (c.1 * 3 + 1) +
            (pos (c.2.1 * 3 + 1) - pos (c.1 * 3 + 1)) *
              ((pairDist pos c - c.2.2) / pairDist pos c * (s * 0.5))) ∧
      (solveStep pos (s * 0.5) c (c.1 * 3 + 2) =
          pos (c.1 * 3 + 2) +
            (pos (c.2.1 * 3 + 2) - pos (c.1 * 3 + 2)) *
              ((pairDist pos c - c.2.2) / pairDist pos c * (s * 0.5))) ∧
      (solveStep pos (s * 0.5) c (c.2.1 * 3) - pos (c.2.1 * 3) =
          -(solveStep pos (s * 0.5) c (c.1 * 3) - pos (c.1 * 3))) ∧
      (solveStep pos (s * 0.5) c (c.2.1 * 3 + 1) - pos (c.2.1 * 3 + 1) =
          -(solveStep pos (s * 0.5) c (c.1 * 3 + 1) - pos (c.1 * 3 + 1))) ∧
      (solveStep pos (s * 0.5) c (c.2.1 * 3 + 2) - pos (c.2.1 * 3 + 2) =
          -(solveStep pos (s * 0.5) c (c.1 * 3 + 2) - pos (c.1 * 3 + 2))) ∧
      (∀ n, n ≠ c.1 * 3 → n ≠ c.1 * 3 + 1 → n ≠ c.1 * 3 + 2 → n ≠ c.2.1 * 3 →
        n ≠ c.2.1 * 3 + 1 → n ≠ c.2.1 * 3 + 2 → solveStep pos (s * 0.5) c n = pos n)) := by
  constructor
  · exact solveStep_skip pos (s * 0.5) c
  · intro hnd
    have h12 := ne_of_not_skip pos c hnd
    have happ := solveStep_apply pos (s * 0.5) c h12 hnd
    refine ⟨?_, ?_, ?_, ?_, ?_, ?_, ?_⟩
    · rw [happ (c.1 * 3)]
      rw [if_pos rfl, corrOf]
    · rw [happ (c.1 * 3 + 1)]
      rw [if_neg (by omega), if_pos rfl, corrOf]
    · rw [happ (c.1 * 3 + 2)]
      rw [if_neg (by omega), if_neg (by omega), if_pos rfl, corrOf]
    · rw [happ (c.2.1 * 3), happ (c.1 * 3)]
      rw [if_pos rfl]
      rw [if_neg (by omega), if_neg (by omega), if_neg (by omega), if_pos rfl]
      ring
    · rw [happ (c.2.1 * 3 + 1), happ (c.1 * 3 + 1)]
      rw [if_neg (by omega), if_pos rfl]
      rw [if_neg (by omega), if_neg (by omega), if_neg (by omega), if_neg (by omega),
        if_pos rfl]
      ring
    · rw [happ (c.2.1 * 3 + 2), happ (c.1 * 3 + 2)]
      rw [if_neg (by omega), if_neg (by omega), if_pos rfl]
      rw [if_neg (by omega), if_neg (by omega), if_neg (by omega), if_neg (by omega),
        if_neg (by omega), if_pos rfl]
      ring
    · intro n hn1 hn2 hn3 hn4 hn5 hn6
      rw [happ n]
      rw [if_neg hn1, if_neg hn2, if_neg hn3, if_neg hn4, if_neg hn5, if_neg hn6]

/-- Witness for C1: both branches of the solve action at concrete inputs:
a coincident pair is skipped, and the pair at distance 2 with rest length
2 has its first endpoint moved by the stated formula. -/
theorem solve_pass_constraint_action_witness :
    (solveStep posZero (1 * 0.5) (0, 1, (1 : ℝ)) = posZero) ∧
    (solveStep posPair (1 * 0.5) (0, 1, (2 : ℝ)) (0 * 3) =
        posPair (0 * 3) +
          (posPair (1 * 3) - posPair (0 * 3)) *
            ((pairDist posPair (0, 1, (2 : ℝ)) - 2) / pairDist posPair (0, 1, (2 : ℝ)) *
              (1 * 0.5))) := by
  constructor
  · exact (solve_pass_constraint_action posZero 1 (0, 1, (1 : ℝ))).1
      (by rw [pairDist, pairDistSq]; norm_num [posZero])
  · exact ((solve_pass_constraint_action posPair 1 (0, 1, (2 : ℝ))).2
      (by rw [posPair_dist]; norm_num)).1

/-- C6: one solve pass over a list whose constraints are all exactly at
rest length (with every pair distance at or above the 1e-4 guard) leaves
every particle position unchanged, at any strength. -/
theorem relaxation_idempotent_at_rest (list : List Constraint) (pos : ℕ → ℝ) (s : ℝ)
    (hrest : ∀ c ∈ list, pairDist pos c = c.2.2 ∧ ¬ pairDist pos c < 0.0001) :
    solveList list pos s = pos :=
  solveList_at_rest list pos s fun c hc => (hrest c hc).1

/-- Witness for C6: the two-particle buffer at exact rest length 2 is a
fixed point of the solve pass at strength 0.7. -/
theorem relaxation_idempotent_at_rest_witness :
    solveList [(0, 1, (2 : ℝ))] posPair 0.7 = posPair :=
  relaxation_idempotent_at_rest [(0, 1, (2 : ℝ))] posPair 0.7 (by
    intro c hc
    simp only [List.mem_singleton] at hc
    subst hc
    rw [posPair_dist]
    norm_num)

/-- Sum of coordinate k over the first n particles of a buffer. -/
noncomputable def coordSum (pos : ℕ → ℝ) (n k : ℕ) : ℝ :=
  ∑ i ∈ Finset.range n, pos (i * 3 + k)

theorem solveStep_coordSum (pos : ℕ → ℝ) (h : ℝ) (c : Constraint) (n k : ℕ)
    (h1 : c.1 < n) (h2 : c.2.1 < n) (hk : k < 3) :
    coordSum (solveStep pos h c) n k = coordSum pos n k := by
  by_cases hlt : pairDist pos c < 0.0001
  · rw [solveStep_skip pos h c hlt]
  · have h12 := ne_of_not_skip pos c hlt
    have happ := solveStep_apply pos h c h12 hlt
    set Δ : ℝ := (pos (c.2.1 * 3 + k) - pos (c.1 * 3 + k)) * corrOf pos h c with hΔ
    have hpt : ∀ i ∈ Finset.range n, solveStep pos h c (i * 3 + k) =
        pos (i * 3 + k) + ((if i = c.1 then Δ else 0) + (if i = c.2.1 then -Δ else 0)) := by
      intro i _
      by_cases hic1 : i = c.1
      · rw [hic1, if_pos rfl, if_neg h12, happ (c.1 * 3 + k)]
        interval_cases k
        · rw [if_pos (show c.1 * 3 + 0 = c.1 * 3 by omega), hΔ]
          simp only [Nat.add_zero]
          ring
        · rw [if_neg (by omega), if_pos rfl, hΔ]
          ring
        · rw [if_neg (by omega), if_neg (by omega), if_pos rfl, hΔ]
          ring
      · by_cases hic2 : i = c.2.1
        · rw [hic2, if_neg (show ¬ c.2.1 = c.1 by omega), if_pos rfl, happ (c.2.1 * 3 + k)]
          interval_cases k
          · rw [if_neg (by omega), if_neg (by omega), if_neg (by omega),
              if_pos (show c.2.1 * 3 + 0 = c.2.1 * 3 by omega), hΔ]
            simp only [Nat.add_zero]
            ring
          · rw [if_neg (by omega), if_neg (by omega), if_neg (by omega), if_neg (by omega),
              if_pos rfl, hΔ]
            ring
          · rw [if_neg (by omega), if_neg (by omega), if_neg (by omega), if_neg (by omega),
              if_neg (by omega), if_pos rfl, hΔ]
            ring
        · rw [if_neg hic1, if_neg hic2, happ (i * 3 + k)]
          rw [if_neg (by omega), if_neg (by omega), if_neg (by omega), if_neg (by omega),
            if_neg (by omega), if_neg (by omega)]
          ring
    rw [coordSum, coordSum, Finset.sum_congr rfl hpt]
    rw [Finset.sum_add_distrib, Finset.sum_add_distrib]
    rw [Finset.sum_ite_eq' (Finset.range n) c.1 fun _ => Δ]
    rw [Finset.sum_ite_eq' (Finset.range n) c.2.1 fun _ => -Δ]
    rw [if_pos (Finset.mem_range.mpr h1), if_pos (Finset.mem_range.mpr h2)]
    ring

/-- C10: one solve pass over any constraint list at any strength preserves
the per-coordinate sum of all particle positions: every applied correction
moves the two endpoints by exactly opposite offsets, so the center of mass
is invariant under constraint relaxation alone. -/
theorem solve_pass_preserves_position_sum (list : List Constraint) (pos : ℕ → ℝ)
    (s : ℝ) (n : ℕ) (hidx : ∀ c ∈ list, c.1 < n ∧ c.2.1 < n) :
    ∀ k, k < 3 → coordSum (solveList list pos s) n k = coordSum pos n k := by
  intro k hk
  induction list generalizing pos with
  | nil => rfl
  | cons c cs ih =>
    have hc := hidx c (List.mem_cons_self c cs)
    calc coordSum (solveList cs (solveStep pos (s * 0.5) c) s) n k
        = coordSum (solveStep pos (s * 0.5) c) n k :=
          ih (solveStep pos (s * 0.5) c) (fun d hd => hidx d (List.mem_cons_of_mem c hd))
      _ = coordSum pos n k := solveStep_coordSum pos (s * 0.5) c n k hc.1 hc.2 hk

/-- Witness for C10: the solve pass over one stretched constraint on two
particles preserves both coordinate sums. -/
theorem solve_pass_preserves_position_sum_witness :
    coordSum (solveList [(0, 1, (1 : ℝ))] posPair 1) 2 0 = coordSum posPair 2 0 :=
  solve_pass_preserves_position_sum [(0, 1, (1 : ℝ))] posPair 1 2
    (by intro c hc; simp only [List.mem_singleton] at hc; subst hc; exact ⟨by norm_num, by norm_num⟩)
    0 (by norm_num)

/-- Reinforcement strength ramp, mirroring Cloth.tsx line 379:
currentStiffness > 0.7 ? (currentStiffness - 0.7) / 0.3 : 0. -/
noncomputable def reinforcementStrength (stiffness : ℝ) : ℝ :=
  if stiffness > 0.7 then (stiffness - 0.7) / 0.3 else 0

/-- Constraint phase of one relaxation iteration, mirroring Cloth.tsx
lines 382-387: structural at strength 1.0, bending at the stiffness, and
the reinforcement list only when its computed strength is positive. -/
noncomputable def relaxPass (structural bending reinforcement : List Constraint)
    (stiffness : ℝ) (pos : ℕ → ℝ) : ℕ → ℝ :=
  let p1 := solveList structural pos 1.0
  let p2 := solveList bending p1 stiffness
  if reinforcementStrength stiffness > 0 then
    solveList reinforcement p2 (reinforcementStrength stiffness)
  else p2

/-- C5: the reinforcement strength is 0 at stiffness at or below 0.7,
equals (stiffness - 0.7) / 0.3 above (0.5 at 0.85 and 1 at 1.0), and the
reinforcement list is solved in a relaxation pass exactly when this
computed strength is positive. -/
theorem reinforcement_ramp_spec (structural bending reinforcement : List Constraint)
    (pos : ℕ → ℝ) :
    (∀ s : ℝ, s ≤ 0.7 → reinforcementStrength s = 0) ∧
    (∀ s : ℝ, 0.7 < s → reinforcementStrength s = (s - 0.7) / 0.3) ∧
    reinforcementStrength 0.85 = 0.5 ∧
    reinforcementStrength 1 = 1 ∧
    (∀ s : ℝ, 0 < reinforcementStrength s →
      relaxPass structural bending reinforcement s pos =
        solveList reinforcement (solveList bending (solveList structural pos 1.0) s)
          (reinforcementStrength s)) ∧
    (∀ s : ℝ, ¬ 0 < reinforcementStrength s →
      relaxPass structural bending reinforcement s pos =
        solveList bending (solveList structural pos 1.0) s) := by
  refine ⟨?_, ?_, ?_, ?_, ?_, ?_⟩
  · intro s hs
    rw [reinforcementStrength, if_neg (by simpa using not_lt.mpr hs)]
  · intro s hs
    rw [reinforcementStrength, if_pos (by simpa using hs)]
  · rw [reinforcementStrength, if_pos (by norm_num)]
    norm_num
  · rw [reinforcementStrength, if_pos (by norm_num)]
    norm_num
  · intro s hs
    rw [relaxPass, if_pos hs]
  · intro s hs
    rw [relaxPass, if_neg hs]

/-- Witness for C5: the ramp at concrete stiffness values 0.5 (inactive)
and 0.9 (active), and the corresponding pass shapes on empty lists. -/
theorem reinforcement_ramp_spec_witness :
    reinforcementStrength 0.5 = 0 ∧
    reinforcementStrength 0.9 = (0.9 - 0.7) / 0.3 ∧
    relaxPass [] [] [] 1 posZero =
      solveList [] (solveList [] (solveList [] posZero 1.0) 1) (reinforcementStrength 1) := by
  refine ⟨?_, ?_, ?_⟩
  · exact (reinforcement_ramp_spec [] [] [] posZero).1 0.5 (by norm_num)
  · exact (reinforcement_ramp_spec [] [] [] posZero).2.1 0.9 (by norm_num)
  · exact (reinforcement_ramp_spec [] [] [] posZero).2.2.2.2.1 1 (by
      rw [reinforcementStrength, if_pos (by norm_num)]
      norm_num)

/-- Physics constants of Cloth.tsx lines 111-115: a fixed 60 Hz timestep,
gravity baked as an acceleration times the squared timestep, and the
velocity drag factor. -/
noncomputable def TIMESTEP : ℝ := 1 / 60

noncomputable def GRAVITY_ACCEL : ℝ := -9.8

noncomputable def GRAVITY : ℝ := GRAVITY_ACCEL * TIMESTEP * TIMESTEP

noncomputable def DRAG : ℝ := 0.99

/-- Verlet particle store: current and previous position buffers. -/
structure PState where
  pos : ℕ → ℝ
  prev : ℕ → ℝ

/-- Integration of a single particle, mirroring the body of the Verlet
loop in Cloth.tsx lines 351-373. -/
noncomputable def integrateStep (s : PState) (i : ℕ) : PState :=
  let idx := i * 3
  let px := s.pos idx
  let py := s.pos (idx + 1)
  let pz := s.pos (idx + 2)
  let ppx := s.prev idx
  let ppy := s.prev (idx + 1)
  let ppz := s.prev (idx + 2)
  let velX := (px - ppx) * DRAG
  let velY := (py - ppy) * DRAG
  let velZ := (pz - ppz) * DRAG
  { pos := upd (upd (upd s.pos idx (px + velX)) (idx + 1) (py + velY + GRAVITY))
      (idx + 2) (pz + velZ),
    prev := upd (upd (upd s.prev idx px) (idx + 1) py) (idx + 2) pz }

/-- Verlet integration pass over all particles. -/
noncomputable def integrate (s : PState) (count : ℕ) : PState :=
  (List.range count).foldl integrateStep s

theorem integrate_succ (s : PState) (n : ℕ) :
    integrate s (n + 1) = integrateStep (integrate s n) n := by
  rw [integrate, List.range_succ, List.foldl_append, List.foldl_cons, List.foldl_nil]
  rfl

theorem integrateStep_pos_frame (s : PState) (i n : ℕ) (h1 : n ≠ i * 3)
    (h2 : n ≠ i * 3 + 1) (h3 : n ≠ i * 3 + 2) : (integrateStep s i).pos n = s.pos n := by
  simp only [integrateStep]
  rw [upd_ne _ _ _ h3, upd_ne _ _ _ h2, upd_ne _ _ _ h1]

theorem integrateStep_prev_frame (s : PState) (i n : ℕ) (h1 : n ≠ i * 3)
    (h2 : n ≠ i * 3 + 1) (h3 : n ≠ i * 3 + 2) : (integrateStep s i).prev n = s.prev n := by
  simp only [integrateStep]
  rw [upd_ne _ _ _ h3, upd_ne _ _ _ h2, upd_ne _ _ _ h1]

theorem integrate_frame (s : PState) (count n : ℕ) (h : 3 * count ≤ n) :
    (integrate s count).pos n = s.pos n ∧ (integrate s count).prev n = s.prev n := by
  induction count with
  | zero => exact ⟨rfl, rfl⟩
  | succ m ih =>
    have hm : 3 * m ≤ n := by omega
    rw [integrate_succ]
    constructor
    · rw [integrateStep_pos_frame _ _ _ (by omega) (by omega) (by omega)]
      exact (ih hm).1
    · rw [integrateStep_prev_frame _ _ _ (by omega) (by omega) (by omega)]
      exact (ih hm).2

/-- Full description of the integration pass at any particle below the
count: previous takes the old current, current advances by the dragged
implied velocity, and gravity enters the y component only. -/
theorem integrate_apply (s : PState) (count i : ℕ) (hi : i < count) :
    (integrate s count).prev (i * 3) = s.pos (i * 3) ∧
    (integrate s count).prev (i * 3 + 1) = s.pos (i * 3 + 1) ∧
    (integrate s count).prev (i * 3 + 2) = s.pos (i * 3 + 2) ∧
    (integrate s count).pos (i * 3) = s.pos (i * 3) + (s.pos (i * 3) - s.prev (i * 3)) * DRAG ∧
    (integrate s count).pos (i * 3 + 1) =
      s.pos (i * 3 + 1) + (s.pos (i * 3 + 1) - s.prev (i * 3 + 1)) * DRAG + GRAVITY ∧
    (integrate s count).pos (i * 3 + 2) =
      s.pos (i * 3 + 2) + (s.pos (i * 3 + 2) - s.prev (i * 3 + 2)) * DRAG := by
  induction count with
  | zero => omega
  | succ m ih =>
    rw [integrate_succ]
    by_cases him : i < m
    · have h0 := integrateStep_pos_frame (integrate s m) m (i * 3) (by omega) (by omega)
        (by omega)
      have h1 := integrateStep_pos_frame (integrate s m) m (i * 3 + 1) (by omega) (by omega)
        (by omega)
      have h2 := integrateStep_pos_frame (integrate s m) m (i * 3 + 2) (by omega) (by omega)
        (by omega)
      have g0 := integrateStep_prev_frame (integrate s m) m (i * 3) (by omega) (by omega)
        (by omega)
      have g1 := integrateStep_prev_frame (integrate s m) m (i * 3 + 1) (by omega) (by omega)
        (by omega)
      have g2 := integrateStep_prev_frame (integrate s m) m (i * 3 + 2) (by omega) (by omega)
        (by omega)
      rw [h0, h1, h2, g0, g1, g2]
      exact ih him
    · have hieq : i = m := by omega
      subst hieq
      have f0 := (integrate_frame s i (i * 3) (by omega)).1
      have f1 := (integrate_frame s i (i * 3 + 1) (by omega)).1
      have f2 := (integrate_frame s i (i * 3 + 2) (by omega)).1
      have e0 := (integrate_frame s i (i * 3) (by omega)).2
      have e1 := (integrate_frame s i (i * 3 + 1) (by omega)).2
      have e2 := (integrate_frame s i (i * 3 + 2) (by omega)).2
      simp only [integrateStep]
      refine ⟨?_, ?_, ?_, ?_, ?_, ?_⟩
      · rw [upd_ne _ _ _ (show i * 3 ≠ i * 3 + 2 by omega),
          upd_ne _ _ _ (show i * 3 ≠ i * 3 + 1 by omega), upd_eq, f0]
      · rw [upd_ne _ _ _ (show i * 3 + 1 ≠ i * 3 + 2 by omega), upd_eq, f1]
      · rw [upd_eq, f2]
      · rw [upd_ne _ _ _ (show i * 3 ≠ i * 3 + 2 by omega),
          upd_ne _ _ _ (show i * 3 ≠ i * 3 + 1 by omega), upd_eq, f0, e0]
      · rw [upd_ne _ _ _ (show i * 3 + 1 ≠ i * 3 + 2 by omega), upd_eq, f1, e1]
      · rw [upd_eq, f2, e2]

/-- C2: in the integration phase of a tick every particle gets the implied
velocity (current - previous) * 0.99, previous becomes the old current,
current advances by that velocity, and the fixed gravitational
displacement -9.8 * (1/60)^2 is added to the y component only. -/
theorem integration_phase_spec (s : PState) (count i : ℕ) (hi : i < count) :
    (integrate s count).prev (i * 3) = s.pos (i * 3) ∧
    (integrate s count).prev (i * 3 + 1) = s.pos (i * 3 + 1) ∧
    (integrate s count).prev (i * 3 + 2) = s.pos (i * 3 + 2) ∧
    (integrate s count).pos (i * 3) = s.pos (i * 3) + (s.pos (i * 3) - s.prev (i * 3)) * 0.99 ∧
    (integrate s count).pos (i * 3 + 1) =
      s.pos (i * 3 + 1) + (s.pos (i * 3 + 1) - s.prev (i * 3 + 1)) * 0.99 +
        (-9.8) * (1 / 60) ^ 2 ∧
    (integrate s count).pos (i * 3 + 2) =
      s.pos (i * 3 + 2) + (s.pos (i * 3 + 2) - s.prev (i * 3 + 2)) * 0.99 := by
  have h := integrate_apply s count i hi
  have hg : GRAVITY = (-9.8) * (1 / 60) ^ 2 := by
    rw [GRAVITY, GRAVITY_ACCEL, TIMESTEP]
    ring
  have hd : DRAG = (0.99 : ℝ) := rfl
  exact ⟨h.1, h.2.1, h.2.2.1, by rw [← hd]; exact h.2.2.2.1,
    by rw [← hd, ← hg]; exact h.2.2.2.2.1, by rw [← hd]; exact h.2.2.2.2.2⟩

/-- Witness for C2: the integration equations instantiated for particle 1
of a two-particle store. -/
theorem integration_phase_spec_witness :
    (integrate ⟨posPair, posZero⟩ 2).prev (1 * 3) = posPair (1 * 3) ∧
    (integrate ⟨posPair, posZero⟩ 2).pos (1 * 3) =
      posPair (1 * 3) + (posPair (1 * 3) - posZero (1 * 3)) * 0.99 := by
  have h := integration_phase_spec ⟨posPair, posZero⟩ 2 1 (by norm_num)
  exact ⟨h.1, h.2.2.2.1⟩

/-- Live solver configuration, mirroring the configRef fields of
Cloth.tsx. -/
structure Config where
  stiffness : ℝ
  clothFriction : ℝ
  sphereFriction : ℝ
  sphereRadius : ℝ
  sphereX : ℝ
  sphereY : ℝ
  sphereZ : ℝ

/-- THREE.MathUtils.clamp. -/
noncomputable def clamp (v lo hi : ℝ) : ℝ := max lo (min hi v)

/-- Pointer-drag interaction state, mirroring interactionRef of
Cloth.tsx. -/
structure Drag where
  active : Bool
  vertexIndex : ℕ
  tx : ℝ
  ty : ℝ
  tz : ℝ

/-- Sphere collision resolution for one particle, mirroring Cloth.tsx
lines 460-531: positional push-out along the normal, then either the
sticky snap (combined friction at or above 0.60) or tangential damping of
the post-push Verlet velocity. -/
noncomputable def sphereResolve (cfg : Config) (s : PState) (i : ℕ) : PState :=
  let idx := i * 3
  let px := s.pos idx
  let py := s.pos (idx + 1)
  let pz := s.pos (idx + 2)
  let dx := px - cfg.sphereX
  let dy := py - cfg.sphereY
  let dz := pz - cfg.sphereZ
  let distSq := dx * dx + dy * dy + dz * dz
  let colRad := cfg.sphereRadius + 0.08
  if distSq < colRad * colRad then
    let dist := Real.sqrt distSq
    let force := (colRad - dist) / dist
    let nx := dx / dist
    let ny := dy / dist
    let nz := dz / dist
    -- velocity read from the buffer right after the positional push
    let velX := px + dx * force - s.prev idx
    let velY := py + dy * force - s.prev (idx + 1)
    let velZ := pz + dz * force - s.prev (idx + 2)
    let vn := velX * nx + velY * ny + velZ * nz
    let vnx := nx * vn
    let vny := ny * vn
    let vnz := nz * vn
    let vtx := velX - vnx
    let vty := velY - vny
    let vtz := velZ - vnz
    let combinedFriction := (cfg.clothFriction + cfg.sphereFriction) * 0.5
    if combinedFriction ≥ 0.60 then
      let snapX := cfg.sphereX + nx * colRad
      let snapY := cfg.sphereY + ny * colRad
      let snapZ := cfg.sphereZ + nz * colRad
      { pos := upd (upd (upd s.pos idx snapX) (idx + 1) snapY) (idx + 2) snapZ,
        prev := upd (upd (upd s.prev idx snapX) (idx + 1) snapY) (idx + 2) snapZ }
    else
      let tangentialDamping := clamp (combinedFriction * 1.2) 0 0.98
      let dampedVtx := vtx * (1 - tangentialDamping)
      let dampedVty := vty * (1 - tangentialDamping)
      let dampedVtz := vtz * (1 - tangentialDamping)
      let finalVelX := vnx + dampedVtx
      let finalVelY := vny + dampedVty
      let finalVelZ := vnz + dampedVtz
      { pos := upd (upd (upd s.pos idx (px + dx * force)) (idx + 1) (py + dy * force))
          (idx + 2) (pz + dz * force),
        prev := upd (upd (upd s.prev idx (px + dx * force - finalVelX))
          (idx + 1) (py + dy * force - finalVelY)) (idx + 2) (pz + dz * force - finalVelZ) }
  else s

/-- Floor collision for one particle, mirroring Cloth.tsx lines 534-541:
clamp to the fixed floor height and damp horizontal velocity by the fixed
floor friction 0.5. -/
noncomputable def floorResolve (s : PState) (i : ℕ) : PState :=
  let idx := i * 3
  if s.pos (idx + 1) < -2.5 then
    let floorFriction : ℝ := 0.5
    let vx := s.pos idx - s.prev idx
    let vz := s.pos (idx + 2) - s.prev (idx + 2)
    { pos := upd s.pos (idx + 1) (-2.5),
      prev := upd (upd s.prev idx (s.pos idx - vx * (1 - floorFriction)))
        (idx + 2) (s.pos (idx + 2) - vz * (1 - floorFriction)) }
  else s

/-- Collision body for one particle of the loop in Cloth.tsx lines
454-542: the actively dragged vertex is skipped entirely, every other
particle is resolved against the sphere and then the floor. -/
noncomputable def collideStep (cfg : Config) (drag : Drag) (s : PState) (i : ℕ) : PState :=
  if drag.active = true ∧ i = drag.vertexIndex then s
  else floorResolve (sphereResolve cfg s i) i

/-- Collision pass over all particles in index order. -/
noncomputable def collidePass (cfg : Config) (drag : Drag) (count : ℕ) (s : PState) : PState :=
  (List.range count).foldl (collideStep cfg drag) s

/-- Sphere center as a function of the coordinate number 0, 1, 2. -/
noncomputable def center (cfg : Config) : ℕ → ℝ :=
  fun k => if k = 0 then cfg.sphereX else if k = 1 then cfg.sphereY else cfg.sphereZ

/-- Squared distance of particle i from the sphere center. -/
noncomputable def sphereDistSq (cfg : Config) (pos : ℕ → ℝ) (i : ℕ) : ℝ :=
  (pos (i * 3) - cfg.sphereX) * (pos (i * 3) - cfg.sphereX) +
    (pos (i * 3 + 1) - cfg.sphereY) * (pos (i * 3 + 1) - cfg.sphereY) +
    (pos (i * 3 + 2) - cfg.sphereZ) * (pos (i * 3 + 2) - cfg.sphereZ)

/-- Coordinate k of the contact normal of particle i. -/
noncomputable def normalComp (cfg : Config) (pos : ℕ → ℝ) (i k : ℕ) : ℝ :=
  (pos (i * 3 + k) - center cfg k) / Real.sqrt (sphereDistSq cfg pos i)

/-- Coordinate k of the position after the sphere push-out. -/
noncomputable def pushedPos (cfg : Config) (pos : ℕ → ℝ) (i k : ℕ) : ℝ :=
  pos (i * 3 + k) +
    (pos (i * 3 + k) - center cfg k) *
      ((cfg.sphereRadius + 0.08 - Real.sqrt (sphereDistSq cfg pos i)) /
        Real.sqrt (sphereDistSq cfg pos i))

/-- Coordinate k of the Verlet velocity read right after the push-out. -/
noncomputable def verletVel (cfg : Config) (s : PState) (i k : ℕ) : ℝ :=
  pushedPos cfg s.pos i k - s.prev (i * 3 + k)

/-- The scalar normal component of the post-push velocity. -/
noncomputable def vnScalar (cfg : Config) (s : PState) (i : ℕ) : ℝ :=
  verletVel cfg s i 0 * normalComp cfg s.pos i 0 +
    verletVel cfg s i 1 * normalComp cfg s.pos i 1 +
    verletVel cfg s i 2 * normalComp cfg s.pos i 2

/-- Coordinate k of the normal part of the post-push velocity. -/
noncomputable def vNormal (cfg : Config) (s : PState) (i k : ℕ) : ℝ :=
  normalComp cfg s.pos i k * vnScalar cfg s i

/-- Coordinate k of the tangential part of the post-push velocity. -/
noncomputable def vTangent (cfg : Config) (s : PState) (i k : ℕ) : ℝ :=
  verletVel cfg s i k - vNormal cfg s i k

/-- Sticky branch of the sphere resolution: with combined friction at or
above 0.60 the particle is written to center + normal * (radius + 0.08)
and previous is set equal to current. -/
theorem sphereResolve_snap (cfg : Config) (s : PState) (i : ℕ)
    (hin : sphereDistSq cfg s.pos i < (cfg.sphereRadius + 0.08) * (cfg.sphereRadius + 0.08))
    (hfr : 0.60 ≤ (cfg.clothFriction + cfg.sphereFriction) * 0.5) :
    (∀ k, k < 3 →
      (sphereResolve cfg s i).pos (i * 3 + k) =
        center cfg k + normalComp cfg s.pos i k * (cfg.sphereRadius + 0.08) ∧
      (sphereResolve cfg s i).prev (i * 3 + k) = (sphereResolve cfg s i).pos (i * 3 + k)) := by
  have hin' : (s.pos (i * 3) - cfg.sphereX) * (s.pos (i * 3) - cfg.sphereX) +
      (s.pos (i * 3 + 1) - cfg.sphereY) * (s.pos (i * 3 + 1) - cfg.sphereY) +
      (s.pos (i * 3 + 2) - cfg.sphereZ) * (s.pos (i * 3 + 2) - cfg.sphereZ) <
      (cfg.sphereRadius + 0.08) * (cfg.sphereRadius + 0.08) := hin
  have hfr' : (cfg.clothFriction + cfg.sphereFriction) * 0.5 ≥ 0.60 := hfr
  intro k hk
  simp only [sphereResolve]
  rw [if_pos hin', if_pos hfr']
  dsimp only
  interval_cases k
  · constructor
    · rw [upd_ne _ _ _ (show i * 3 + 0 ≠ i * 3 + 2 by omega),
        upd_ne _ _ _ (show i * 3 + 0 ≠ i * 3 + 1 by omega),
        (show i * 3 + 0 = i * 3 by omega), upd_eq]
      simp only [normalComp, center, sphereDistSq]
      norm_num
    · rw [upd_ne _ _ _ (show i * 3 + 0 ≠ i * 3 + 2 by omega),
        upd_ne _ _ _ (show i * 3 + 0 ≠ i * 3 + 1 by omega),
        (show i * 3 + 0 = i * 3 by omega), upd_eq, upd_ne _ _ _ (show i * 3 ≠ i * 3 + 2 by omega),
        upd_ne _ _ _ (show i * 3 ≠ i * 3 + 1 by omega), upd_eq]
  · constructor
    · rw [upd_ne _ _ _ (show i * 3 + 1 ≠ i * 3 + 2 by omega), upd_eq]
      simp only [normalComp, center, sphereDistSq]
      norm_num
    · rw [upd_ne _ _ _ (show i * 3 + 1 ≠ i * 3 + 2 by omega), upd_eq,
        upd_ne _ _ _ (show i * 3 + 1 ≠ i * 3 + 2 by omega), upd_eq]
  · constructor
    · rw [upd_eq]
      simp only [normalComp, center, sphereDistSq]
      norm_num
    · rw [upd_eq, upd_eq]

/-- Partial-slip branch of the sphere resolution: below the 0.60 cutoff
the particle keeps the pushed position, and the reconstructed implied
velocity keeps the normal component while the tangential one is scaled by
one minus the clamped damping. -/
theorem sphereResolve_slip (cfg : Config) (s : PState) (i : ℕ)
    (hin : sphereDistSq cfg s.pos i < (cfg.sphereRadius + 0.08) * (cfg.sphereRadius + 0.08))
    (hfr : ¬ 0.60 ≤ (cfg.clothFriction + cfg.sphereFriction) * 0.5) :
    (∀ k, k < 3 →
      (sphereResolve cfg s i).pos (i * 3 + k) = pushedPos cfg s.pos i k ∧
      (sphereResolve cfg s i).pos (i * 3 + k) - (sphereResolve cfg s i).prev (i * 3 + k) =
        vNormal cfg s i k +
          vTangent cfg s i k *
            (1 - clamp ((cfg.clothFriction + cfg.sphereFriction) * 0.5 * 1.2) 0 0.98)) := by
  have hin' : (s.pos (i * 3) - cfg.sphereX) * (s.pos (i * 3) - cfg.sphereX) +
      (s.pos (i * 3 + 1) - cfg.sphereY) * (s.pos (i * 3 + 1) - cfg.sphereY) +
      (s.pos (i * 3 + 2) - cfg.sphereZ) * (s.pos (i * 3 + 2) - cfg.sphereZ) <
      (cfg.sphereRadius + 0.08) * (cfg.sphereRadius + 0.08) := hin
  have hfr' : ¬ (cfg.clothFriction + cfg.sphereFriction) * 0.5 ≥ 0.60 := hfr
  intro k hk
  simp only [sphereResolve]
  rw [if_pos hin', if_neg hfr']
  dsimp only
  interval_cases k
  · constructor
    · rw [upd_ne _ _ _ (show i * 3 + 0 ≠ i * 3 + 2 by omega),
        upd_ne _ _ _ (show i * 3 + 0 ≠ i * 3 + 1 by omega),
        (show i * 3 + 0 = i * 3 by omega), upd_eq]
      simp only [pushedPos, center, sphereDistSq]
      norm_num
    · rw [upd_ne _ _ _ (show i * 3 + 0 ≠ i * 3 + 2 by omega),
        upd_ne _ _ _ (show i * 3 + 0 ≠ i * 3 + 1 by omega),
        (show i * 3 + 0 = i * 3 by omega), upd_eq, upd_ne _ _ _ (show i * 3 ≠ i * 3 + 2 by omega),
        upd_ne _ _ _ (show i * 3 ≠ i * 3 + 1 by omega), upd_eq]
      simp only [vNormal, vTangent, verletVel, vnScalar, normalComp, pushedPos, center,
        sphereDistSq]
      norm_num
      try ring
  · constructor
    · rw [upd_ne _ _ _ (show i * 3 + 1 ≠ i * 3 + 2 by omega), upd_eq]
      simp only [pushedPos, center, sphereDistSq]
      norm_num
    · rw [upd_ne _ _ _ (show i * 3 + 1 ≠ i * 3 + 2 by omega), upd_eq,
        upd_ne _ _ _ (show i * 3 + 1 ≠ i * 3 + 2 by omega), upd_eq]
      simp only [vNormal, vTangent, verletVel, vnScalar, normalComp, pushedPos, center,
        sphereDistSq]
      norm_num
      try ring
  · constructor
    · rw [upd_eq]
      simp only [pushedPos, center, sphereDistSq]
      norm_num
    · rw [upd_eq, upd_eq]
      simp only [vNormal, vTangent, verletVel, vnScalar, normalComp, pushedPos, center,
        sphereDistSq]
      norm_num
      try ring

theorem sphereDistSq_nonneg (cfg : Config) (pos : ℕ → ℝ) (i : ℕ) :
    0 ≤ sphereDistSq cfg pos i := by
  simp only [sphereDistSq]
  have a := mul_self_nonneg (pos (i * 3) - cfg.sphereX)
  have b := mul_self_nonneg (pos (i * 3 + 1) - cfg.sphereY)
  have c := mul_self_nonneg (pos (i * 3 + 2) - cfg.sphereZ)
  linarith

/-- After a sticky snap the particle sits at distance exactly
sphereRadius + 0.08 from the sphere center. -/
theorem sphereResolve_snap_distance (cfg : Config) (s : PState) (i : ℕ)
    (hin : sphereDistSq cfg s.pos i < (cfg.sphereRadius + 0.08) * (cfg.sphereRadius + 0.08))
    (hne : sphereDistSq cfg s.pos i ≠ 0) (hrad : 0 ≤ cfg.sphereRadius)
    (hfr : 0.60 ≤ (cfg.clothFriction + cfg.sphereFriction) * 0.5) :
    Real.sqrt (sphereDistSq cfg (sphereResolve cfg s i).pos i) = cfg.sphereRadius + 0.08 := by
  have h := sphereResolve_snap cfg s i hin hfr
  have e0 : (sphereResolve cfg s i).pos (i * 3) =
      center cfg 0 + normalComp cfg s.pos i 0 * (cfg.sphereRadius + 0.08) := by
    have h' := (h 0 (by norm_num)).1
    rwa [show i * 3 + 0 = i * 3 by omega] at h'
  have e1 : (sphereResolve cfg s i).pos (i * 3 + 1) =
      center cfg 1 + normalComp cfg s.pos i 1 * (cfg.sphereRadius + 0.08) := (h 1 (by norm_num)).1
  have e2 : (sphereResolve cfg s i).pos (i * 3 + 2) =
      center cfg 2 + normalComp cfg s.pos i 2 * (cfg.sphereRadius + 0.08) := (h 2 (by norm_num)).1
  have hnn := sphereDistSq_nonneg cfg s.pos i
  have hd2 : Real.sqrt (sphereDistSq cfg s.pos i) * Real.sqrt (sphereDistSq cfg s.pos i) =
      sphereDistSq cfg s.pos i := Real.mul_self_sqrt hnn
  have hdne : Real.sqrt (sphereDistSq cfg s.pos i) ≠ 0 := by
    intro hz
    exact hne (by rw [← hd2, hz, mul_zero])
  have hcol : (0 : ℝ) ≤ cfg.sphereRadius + 0.08 := by linarith
  have key : sphereDistSq cfg (sphereResolve cfg s i).pos i =
      (cfg.sphereRadius + 0.08) * (cfg.sphereRadius + 0.08) := by
    have e0' := e0
    have e1' := e1
    have e2' := e2
    simp only [normalComp, center] at e0' e1' e2'
    norm_num at e0' e1' e2'
    have hsum : (s.pos (i * 3) - cfg.sphereX) * (s.pos (i * 3) - cfg.sphereX) +
        (s.pos (i * 3 + 1) - cfg.sphereY) * (s.pos (i * 3 + 1) - cfg.sphereY) +
        (s.pos (i * 3 + 2) - cfg.sphereZ) * (s.pos (i * 3 + 2) - cfg.sphereZ) =
        Real.sqrt (sphereDistSq cfg s.pos i) * Real.sqrt (sphereDistSq cfg s.pos i) := by
      rw [Real.mul_self_sqrt hnn]
      rfl
    simp only [sphereDistSq]
    rw [e0', e1', e2']
    trans ((s.pos (i * 3) - cfg.sphereX) * (s.pos (i * 3) - cfg.sphereX) +
        (s.pos (i * 3 + 1) - cfg.sphereY) * (s.pos (i * 3 + 1) - cfg.sphereY) +
        (s.pos (i * 3 + 2) - cfg.sphereZ) * (s.pos (i * 3 + 2) - cfg.sphereZ)) *
        ((cfg.sphereRadius + 0.08) * (cfg.sphereRadius + 0.08)) /
        (Real.sqrt (sphereDistSq cfg s.pos i) * Real.sqrt (sphereDistSq cfg s.pos i))
    · ring
    · rw [hsum]
      exact mul_div_cancel_left₀ _ (mul_ne_zero hdne hdne)
  rw [key]
  exact sqrt_of_sq hcol rfl

/-- C3 (amended): with combined friction at or above 0.60 the in-contact
particle is snapped along the contact normal onto the padded collision
surface at distance sphereRadius + 0.08 from the center (not the
geometric sphere surface) with previous set to current; below the cutoff
it keeps the pushed position and the reconstructed implied velocity keeps
the normal component while the tangential one is scaled by
(1 - clamp(combinedFriction * 1.2, 0, 0.98)). -/
theorem sphere_friction_regimes (cfg : Config) (s : PState) (i : ℕ)
    (hin : sphereDistSq cfg s.pos i < (cfg.sphereRadius + 0.08) * (cfg.sphereRadius + 0.08))
    (hne : sphereDistSq cfg s.pos i ≠ 0) (hrad : 0 ≤ cfg.sphereRadius) :
    (0.60 ≤ (cfg.clothFriction + cfg.sphereFriction) * 0.5 →
      (∀ k, k < 3 →
        (sphereResolve cfg s i).pos (i * 3 + k) =
          center cfg k + normalComp cfg s.pos i k * (cfg.sphereRadius + 0.08) ∧
        (sphereResolve cfg s i).prev (i * 3 + k) = (sphereResolve cfg s i).pos (i * 3 + k)) ∧
      Real.sqrt (sphereDistSq cfg (sphereResolve cfg s i).pos i) = cfg.sphereRadius + 0.08) ∧
    (¬ 0.60 ≤ (cfg.clothFriction + cfg.sphereFriction) * 0.5 →
      ∀ k, k < 3 →
        (sphereResolve cfg s i).pos (i * 3 + k) = pushedPos cfg s.pos i k ∧
        (sphereResolve cfg s i).pos (i * 3 + k) - (sphereResolve cfg s i).prev (i * 3 + k) =
          vNormal cfg s i k +
            vTangent cfg s i k *
              (1 - clamp ((cfg.clothFriction + cfg.sphereFriction) * 0.5 * 1.2) 0 0.98)) := by
  constructor
  · intro hfr
    exact ⟨sphereResolve_snap cfg s i hin hfr,
      sphereResolve_snap_distance cfg s i hin hne hrad hfr⟩
  · intro hfr
    exact sphereResolve_slip cfg s i hin hfr

/-- Sticky-regime configuration: both frictions 1, unit sphere at the
origin. -/
noncomputable def cfgSticky : Config := ⟨1, 1, 1, 1, 0, 0, 0⟩

/-- Slip-regime configuration: both frictions 0.2, unit sphere at the
origin. -/
noncomputable def cfgSlip : Config := ⟨1, 0.2, 0.2, 1, 0, 0, 0⟩

/-- Concrete contact state: particle 0 at (0.5, 0, 0), at rest. -/
noncomputable def contactState : PState :=
  ⟨fun n => if n = 0 then 0.5 else 0, fun n => if n = 0 then 0.5 else 0⟩

theorem contactState_distSq : sphereDistSq cfgSticky contactState.pos 0 = 0.25 := by
  simp only [sphereDistSq, cfgSticky, contactState]
  norm_num

/-- Counterexample to C3 as stated: in the sticky regime the particle at
distance 0.5 from the unit sphere center ends at distance 1.08 from the
center, not on the sphere surface at distance sphereRadius = 1. -/
theorem sphere_snap_not_on_surface :
    sphereDistSq cfgSticky contactState.pos 0 <
      (cfgSticky.sphereRadius + 0.08) * (cfgSticky.sphereRadius + 0.08) ∧
    0.60 ≤ (cfgSticky.clothFriction + cfgSticky.sphereFriction) * 0.5 ∧
    Real.sqrt (sphereDistSq cfgSticky (sphereResolve cfgSticky contactState 0).pos 0) = 1.08 ∧
    cfgSticky.sphereRadius = 1 ∧ (1.08 : ℝ) ≠ 1 := by
  have hin : sphereDistSq cfgSticky contactState.pos 0 <
      (cfgSticky.sphereRadius + 0.08) * (cfgSticky.sphereRadius + 0.08) := by
    rw [contactState_distSq]
    simp only [cfgSticky]
    norm_num
  have hne : sphereDistSq cfgSticky contactState.pos 0 ≠ 0 := by
    rw [contactState_distSq]
    norm_num
  have hfr : 0.60 ≤ (cfgSticky.clothFriction + cfgSticky.sphereFriction) * 0.5 := by
    simp only [cfgSticky]
    norm_num
  refine ⟨hin, hfr, ?_, rfl, by norm_num⟩
  have := sphereResolve_snap_distance cfgSticky contactState 0 hin hne
    (by simp only [cfgSticky]; norm_num) hfr
  rw [this]
  simp only [cfgSticky]
  norm_num

/-- Witness for C3 (amended): both regimes instantiated at the concrete
contact state; the sticky result sits at distance 1.08 and the slip
result keeps the pushed position at coordinate 0. -/
theorem sphere_friction_regimes_witness :
    Real.sqrt (sphereDistSq cfgSticky (sphereResolve cfgSticky contactState 0).pos 0) =
      cfgSticky.sphereRadius + 0.08 ∧
    (sphereResolve cfgSlip contactState 0).pos (0 * 3 + 0) =
      pushedPos cfgSlip contactState.pos 0 0 := by
  constructor
  · exact ((sphere_friction_regimes cfgSticky contactState 0
      (by rw [contactState_distSq]; simp only [cfgSticky]; norm_num)
      (by rw [contactState_distSq]; norm_num)
      (by simp only [cfgSticky]; norm_num)).1
      (by simp only [cfgSticky]; norm_num)).2
  · exact (((sphere_friction_regimes cfgSlip contactState 0
      (by simp only [sphereDistSq, cfgSlip, contactState]; norm_num)
      (by simp only [sphereDistSq, cfgSlip, contactState]; norm_num)
      (by simp only [cfgSlip]; norm_num)).2
      (by simp only [cfgSlip]; norm_num)) 0 (by norm_num)).1

/-- The full relaxation loop of Cloth.tsx lines 381-387 restricted to its
constraint phase, iterated n times. -/
noncomputable def relaxLoop (structural bending reinforcement : List Constraint)
    (stiffness : ℝ) (n : ℕ) (pos : ℕ → ℝ) : ℕ → ℝ :=
  (List.range n).foldl (fun p _ => relaxPass structural bending reinforcement stiffness p) pos

/-- Squared rest-length error of one constraint. -/
noncomputable def constraintErrSq (pos : ℕ → ℝ) (c : Constraint) : ℝ :=
  (pairDist pos c - c.2.2) * (pairDist pos c - c.2.2)

/-- Total squared rest-length error of a constraint list. -/
noncomputable def totalErrSq (list : List Constraint) (pos : ℕ → ℝ) : ℝ :=
  (list.map (constraintErrSq pos)).sum

theorem relaxLoop_succ (structural bending reinforcement : List Constraint)
    (stiffness : ℝ) (n : ℕ) (pos : ℕ → ℝ) :
    relaxLoop structural bending reinforcement stiffness (n + 1) pos =
      relaxPass structural bending reinforcement stiffness
        (relaxLoop structural bending reinforcement stiffness n pos) := by
  rw [relaxLoop, List.range_succ, List.foldl_append, List.foldl_cons, List.foldl_nil]
  rfl

/-- Rational one-dimensional mirror of one constraint relaxation: every
particle lives on the x axis, so the distance is the absolute difference
of the stored x coordinates. -/
def solveStepQ (pos : List ℚ) (halfStrength : ℚ) (c : ℕ × ℕ × ℚ) : List ℚ :=
  let x1 := pos.getD c.1 0
  let x2 := pos.getD c.2.1 0
  let dx := x2 - x1
  let dist := |dx|
  if dist < 0.0001 then pos
  else
    let diff := (dist - c.2.2) / dist
    let correction := diff * halfStrength
    let off := dx * correction
    (pos.set c.1 (x1 + off)).set c.2.1 (x2 - off)

/-- Rational mirror of one solve pass. -/
def solveListQ (list : List (ℕ × ℕ × ℚ)) (pos : List ℚ) (strength : ℚ) : List ℚ :=
  list.foldl (fun p c => solveStepQ p (strength * 0.5) c) pos

/-- Rational mirror of the relaxation loop with only a structural list at
strength 1. -/
def relaxLoopQ (cs : List (ℕ × ℕ × ℚ)) (n : ℕ) (pos : List ℚ) : List ℚ :=
  (List.range n).foldl (fun p _ => solveListQ cs p 1) pos

/-- Rational mirror of the total squared rest-length error. -/
def errQ (list : List (ℕ × ℕ × ℚ)) (pos : List ℚ) : ℚ :=
  (list.map (fun c => (|pos.getD c.2.1 0 - pos.getD c.1 0| - c.2.2) *
    (|pos.getD c.2.1 0 - pos.getD c.1 0| - c.2.2))).sum

/-- Cast a rational constraint to a real one. -/
noncomputable def castC (c : ℕ × ℕ × ℚ) : Constraint := (c.1, c.2.1, (c.2.2 : ℝ))

/-- Embed a one-dimensional rational configuration into the flat real
buffer: particle i sits at (q i, 0, 0). -/
noncomputable def embed1 (q : List ℚ) : ℕ → ℝ :=
  fun n => if n % 3 = 0 then ((q.getD (n / 3) 0 : ℚ) : ℝ) else 0

theorem embed1_x (q : List ℚ) (i : ℕ) : embed1 q (i * 3) = ((q.getD i 0 : ℚ) : ℝ) := by
  simp only [embed1]
  rw [if_pos (show i * 3 % 3 = 0 by omega), show i * 3 / 3 = i by omega]

theorem embed1_off (q : List ℚ) (n : ℕ) (h : n % 3 ≠ 0) : embed1 q n = 0 := by
  simp only [embed1]
  rw [if_neg h]

theorem listGetD_set_self (l : List ℚ) (i : ℕ) (v : ℚ) (h : i < l.length) :
    (l.set i v).getD i 0 = v := by
  rw [List.getD_eq_getElem?_getD, List.getElem?_set_eq_of_lt v h]
  rfl

theorem listGetD_set_ne (l : List ℚ) (i j : ℕ) (v : ℚ) (h : j ≠ i) :
    (l.set i v).getD j 0 = l.getD j 0 := by
  rw [List.getD_eq_getElem?_getD, List.getElem?_set_ne (show i ≠ j from fun hh => h hh.symm),
    ← List.getD_eq_getElem?_getD]

/-- The pair distance of an embedded one-dimensional configuration is the
cast absolute coordinate difference. -/
theorem pairDist_embed1 (q : List ℚ) (c : ℕ × ℕ × ℚ) :
    pairDist (embed1 q) (castC c) = ((|q.getD c.2.1 0 - q.getD c.1 0| : ℚ) : ℝ) := by
  rw [pairDist, pairDistSq]
  simp only [castC]
  rw [embed1_x, embed1_x, embed1_off q _ (by omega), embed1_off q _ (by omega),
    embed1_off q _ (by omega), embed1_off q _ (by omega)]
  rw [show (((q.getD c.2.1 0 : ℚ) : ℝ) - ((q.getD c.1 0 : ℚ) : ℝ)) *
        (((q.getD c.2.1 0 : ℚ) : ℝ) - ((q.getD c.1 0 : ℚ) : ℝ)) + (0 - 0) * (0 - 0) +
        (0 - 0) * (0 - 0) =
      (((q.getD c.2.1 0 : ℚ) : ℝ) - ((q.getD c.1 0 : ℚ) : ℝ)) *
        (((q.getD c.2.1 0 : ℚ) : ℝ) - ((q.getD c.1 0 : ℚ) : ℝ)) by ring]
  rw [Real.sqrt_mul_self_eq_abs]
  push_cast
  ring

set_option maxHeartbeats 1000000 in
/-- One constraint relaxation commutes with the one-dimensional
embedding. -/
theorem solveStep_embed1 (q : List ℚ) (hs : ℚ) (c : ℕ × ℕ × ℚ)
    (h1 : c.1 < q.length) (h2 : c.2.1 < q.length) :
    solveStep (embed1 q) ((hs : ℚ) : ℝ) (castC c) = embed1 (solveStepQ q hs c) := by
  have hdist := pairDist_embed1 q c
  have hcast4 : ((0.0001 : ℚ) : ℝ) = 0.0001 := by norm_num
  by_cases hlt : |q.getD c.2.1 0 - q.getD c.1 0| < (0.0001 : ℚ)
  · have hltR : pairDist (embed1 q) (castC c) < 0.0001 := by
      rw [hdist, ← hcast4]
      exact_mod_cast hlt
    rw [solveStep_skip _ _ _ hltR]
    have hQ : solveStepQ q hs c = q := by
      simp only [solveStepQ]
      rw [if_pos hlt]
    rw [hQ]
  · have h12 : c.1 ≠ c.2.1 := by
      intro he
      apply hlt
      rw [he, sub_self, abs_zero]
      norm_num
    have hltR : ¬ pairDist (embed1 q) (castC c) < 0.0001 := by
      rw [hdist, ← hcast4]
      exact_mod_cast hlt
    have happ := solveStep_apply (embed1 q) ((hs : ℚ) : ℝ) (castC c)
      (by simpa [castC] using h12) hltR
    have hcorr : corrOf (embed1 q) ((hs : ℚ) : ℝ) (castC c) =
        (((|q.getD c.2.1 0 - q.getD c.1 0| - c.2.2) / |q.getD c.2.1 0 - q.getD c.1 0| * hs :
          ℚ) : ℝ) := by
      rw [corrOf, hdist]
      simp only [castC]
      push_cast
      ring
    simp only [castC] at happ hcorr ⊢
    have hQ : solveStepQ q hs c =
        (q.set c.1 (q.getD c.1 0 +
          (q.getD c.2.1 0 - q.getD c.1 0) *
            ((|q.getD c.2.1 0 - q.getD c.1 0| - c.2.2) / |q.getD c.2.1 0 - q.getD c.1 0| *
              hs))).set c.2.1 (q.getD c.2.1 0 -
          (q.getD c.2.1 0 - q.getD c.1 0) *
            ((|q.getD c.2.1 0 - q.getD c.1 0| - c.2.2) / |q.getD c.2.1 0 - q.getD c.1 0| *
              hs)) := by
      simp only [solveStepQ]
      rw [if_neg hlt]
    funext n
    rw [happ n, hQ]
    by_cases hn0 : n % 3 = 0
    · by_cases hnc1 : n / 3 = c.1
      · have hn : n = c.1 * 3 := by omega
        subst hn
        rw [if_pos rfl]
        simp only [embed1_x]
        rw [listGetD_set_ne _ _ _ _ h12, listGetD_set_self _ _ _ h1, hcorr]
        push_cast
        ring
      · by_cases hnc2 : n / 3 = c.2.1
        · have hn : n = c.2.1 * 3 := by omega
          subst hn
          rw [if_neg (by omega), if_neg (by omega), if_neg (by omega), if_pos rfl]
          simp only [embed1_x]
          rw [listGetD_set_self _ _ _ (by rw [List.length_set]; exact h2), hcorr]
          push_cast
          ring
        · rw [if_neg (by omega), if_neg (by omega), if_neg (by omega), if_neg (by omega),
            if_neg (by omega), if_neg (by omega)]
          have hn : n = n / 3 * 3 := by omega
          rw [hn]
          simp only [embed1_x]
          rw [listGetD_set_ne _ _ _ _ hnc2, listGetD_set_ne _ _ _ _ hnc1]
    · rw [embed1_off _ _ hn0]
      split_ifs with ha hb hc hd he hf
      · exfalso
        omega
      · rw [embed1_off _ _ hn0, embed1_off q _ (by omega), embed1_off q _ (by omega)]
        ring
      · rw [embed1_off _ _ hn0, embed1_off q _ (by omega), embed1_off q _ (by omega)]
        ring
      · exfalso
        omega
      · rw [embed1_off _ _ hn0, embed1_off q _ (by omega), embed1_off q _ (by omega)]
        ring
      · rw [embed1_off _ _ hn0, embed1_off q _ (by omega), embed1_off q _ (by omega)]
        ring
      · exact (embed1_off _ _ hn0).symm

theorem solveStepQ_length (q : List ℚ) (hs : ℚ) (c : ℕ × ℕ × ℚ) :
    (solveStepQ q hs c).length = q.length := by
  simp only [solveStepQ]
  split_ifs
  · rfl
  · simp [List.length_set]

theorem solveListQ_length (l : List (ℕ × ℕ × ℚ)) (q : List ℚ) (s : ℚ) :
    (solveListQ l q s).length = q.length := by
  induction l generalizing q with
  | nil => rfl
  | cons c cs ih =>
    calc (solveListQ cs (solveStepQ q (s * 0.5) c) s).length
        = (solveStepQ q (s * 0.5) c).length := ih _
      _ = q.length := solveStepQ_length _ _ _

theorem relaxLoopQ_succ (cs : List (ℕ × ℕ × ℚ)) (n : ℕ) (q : List ℚ) :
    relaxLoopQ cs (n + 1) q = solveListQ cs (relaxLoopQ cs n q) 1 := by
  rw [relaxLoopQ, List.range_succ, List.foldl_append, List.foldl_cons, List.foldl_nil]
  rfl

theorem relaxLoopQ_length (cs : List (ℕ × ℕ × ℚ)) (n : ℕ) (q : List ℚ) :
    (relaxLoopQ cs n q).length = q.length := by
  induction n with
  | zero => rfl
  | succ m ih => rw [relaxLoopQ_succ, solveListQ_length, ih]

/-- A solve pass commutes with the one-dimensional embedding. -/
theorem solveList_embed1 (l : List (ℕ × ℕ × ℚ)) (q : List ℚ) (sQ : ℚ)
    (hidx : ∀ c ∈ l, c.1 < q.length ∧ c.2.1 < q.length) :
    solveList (l.map castC) (embed1 q) ((sQ : ℚ) : ℝ) = embed1 (solveListQ l q sQ) := by
  induction l generalizing q with
  | nil => rfl
  | cons c cs ih =>
    have hmem := hidx c (List.mem_cons_self c cs)
    have hstep : solveStep (embed1 q) (((sQ : ℚ) : ℝ) * 0.5) (castC c) =
        embed1 (solveStepQ q (sQ * 0.5) c) := by
      have hcast : ((sQ : ℚ) : ℝ) * 0.5 = ((sQ * 0.5 : ℚ) : ℝ) := by
        push_cast
        ring
      rw [hcast]
      exact solveStep_embed1 q (sQ * 0.5) c hmem.1 hmem.2
    calc solveList (List.map castC (c :: cs)) (embed1 q) ((sQ : ℚ) : ℝ)
        = solveList (List.map castC cs) (solveStep (embed1 q) (((sQ : ℚ) : ℝ) * 0.5) (castC c))
            ((sQ : ℚ) : ℝ) := rfl
      _ = solveList (List.map castC cs) (embed1 (solveStepQ q (sQ * 0.5) c)) ((sQ : ℚ) : ℝ) := by
          rw [hstep]
      _ = embed1 (solveListQ cs (solveStepQ q (sQ * 0.5) c) sQ) := by
          refine ih _ fun d hd => ?_
          rw [solveStepQ_length]
          exact hidx d (List.mem_cons_of_mem c hd)
      _ = embed1 (solveListQ (c :: cs) q sQ) := rfl

theorem reinforcementStrength_zero : reinforcementStrength 0 = 0 := by
  rw [reinforcementStrength, if_neg (by norm_num)]

/-- With an empty bending list, stiffness zero, and an empty
reinforcement list the relaxation pass is exactly the structural solve at
strength 1. -/
theorem relaxPass_structural_only (structural : List Constraint) (pos : ℕ → ℝ) :
    relaxPass structural [] [] 0 pos = solveList structural pos 1.0 := by
  simp only [relaxPass, reinforcementStrength_zero]
  rw [if_neg (by norm_num)]
  rfl

/-- The relaxation loop commutes with the one-dimensional embedding. -/
theorem relaxLoop_embed1 (l : List (ℕ × ℕ × ℚ)) (q : List ℚ) (n : ℕ)
    (hidx : ∀ c ∈ l, c.1 < q.length ∧ c.2.1 < q.length) :
    relaxLoop (l.map castC) [] [] 0 n (embed1 q) = embed1 (relaxLoopQ l n q) := by
  induction n with
  | zero => rfl
  | succ m ih =>
    rw [relaxLoop_succ, ih, relaxPass_structural_only]
    have hone : (1.0 : ℝ) = ((1 : ℚ) : ℝ) := by norm_num
    rw [hone, solveList_embed1 l _ 1 fun c hc => by
      rw [relaxLoopQ_length]
      exact hidx c hc]
    rw [relaxLoopQ_succ]

/-- The total squared error commutes with the one-dimensional
embedding. -/
theorem totalErrSq_embed1 (l : List (ℕ × ℕ × ℚ)) (q : List ℚ) :
    totalErrSq (l.map castC) (embed1 q) = ((errQ l q : ℚ) : ℝ) := by
  induction l with
  | nil =>
    simp [totalErrSq, errQ]
  | cons c cs ih =>
    have hc : constraintErrSq (embed1 q) (castC c) =
        (((|q.getD c.2.1 0 - q.getD c.1 0| - c.2.2) *
          (|q.getD c.2.1 0 - q.getD c.1 0| - c.2.2) : ℚ) : ℝ) := by
      rw [constraintErrSq, pairDist_embed1]
      simp only [castC]
      push_cast
      ring
    calc totalErrSq (List.map castC (c :: cs)) (embed1 q)
        = constraintErrSq (embed1 q) (castC c) + totalErrSq (List.map castC cs) (embed1 q) := by
          simp [totalErrSq]
      _ = (((|q.getD c.2.1 0 - q.getD c.1 0| - c.2.2) *
            (|q.getD c.2.1 0 - q.getD c.1 0| - c.2.2) : ℚ) : ℝ) + ((errQ cs q : ℚ) : ℝ) := by
          rw [hc, ih]
      _ = ((errQ (c :: cs) q : ℚ) : ℝ) := by
          rw [errQ, errQ]
          push_cast
          simp [List.map_cons, List.sum_cons]

/-- The triangle constraint graph with unit rest lengths. -/
def triangleQ : List (ℕ × ℕ × ℚ) := [(0, 1, 1), (1, 2, 1), (0, 2, 1)]

/-- A collinear starting configuration for the triangle graph. -/
def startQ : List ℚ := [2, 7 / 2, -1 / 2]

theorem triangleQ_idx : ∀ c ∈ triangleQ, c.1 < startQ.length ∧ c.2.1 < startQ.length := by
  intro c hc
  simp only [triangleQ, List.mem_cons, List.not_mem_nil, or_false] at hc
  rcases hc with h | h | h <;> subst h <;> exact ⟨by norm_num [startQ], by norm_num [startQ]⟩

set_option maxRecDepth 10000 in
/-- Counterexample to C7 as stated: on the unit-rest triangle graph from
the collinear start (2, 3.5, -0.5), twenty iterations of the relaxation
loop leave a strictly larger total squared rest-length error than eight
iterations. -/
theorem convergence_monotonicity_fails :
    totalErrSq (triangleQ.map castC)
        (relaxLoop (triangleQ.map castC) [] [] 0 8 (embed1 startQ)) <
      totalErrSq (triangleQ.map castC)
        (relaxLoop (triangleQ.map castC) [] [] 0 20 (embed1 startQ)) := by
  rw [relaxLoop_embed1 _ _ _ triangleQ_idx, relaxLoop_embed1 _ _ _ triangleQ_idx,
    totalErrSq_embed1, totalErrSq_embed1]
  have h : errQ triangleQ (relaxLoopQ triangleQ 8 startQ) <
      errQ triangleQ (relaxLoopQ triangleQ 20 startQ) := by
    with_unfolding_all decide
  exact_mod_cast h

/-- A fixed point of the relaxation pass is a fixed point of the whole
loop. -/
theorem relaxLoop_fixed (structural bending reinforcement : List Constraint) (s : ℝ)
    (pos : ℕ → ℝ) (n : ℕ)
    (hfix : relaxPass structural bending reinforcement s pos = pos) :
    relaxLoop structural bending reinforcement s n pos = pos := by
  induction n with
  | zero => rfl
  | succ m ih => rw [relaxLoop_succ, ih, hfix]

/-- A configuration whose three lists are all at rest is a fixed point of
the relaxation pass. -/
theorem relaxPass_at_rest (structural bending reinforcement : List Constraint) (s : ℝ)
    (pos : ℕ → ℝ)
    (h : ∀ c ∈ structural ++ bending ++ reinforcement, pairDist pos c = c.2.2) :
    relaxPass structural bending reinforcement s pos = pos := by
  have hS : solveList structural pos 1.0 = pos :=
    solveList_at_rest _ _ _ fun c hc => h c (by simp [hc])
  have hB : solveList bending pos s = pos :=
    solveList_at_rest _ _ _ fun c hc => h c (by simp [hc])
  have hR : solveList reinforcement pos (reinforcementStrength s) = pos :=
    solveList_at_rest _ _ _ fun c hc => h c (by simp [hc])
  simp only [relaxPass, hS, hB]
  split_ifs
  · exact hR
  · rfl

/-- C7 (amended): increasing the iteration count from 8 to 20 does not
increase the total squared rest-length error when the relaxation has
converged by iteration 8 (one further pass leaves the state unchanged);
without that proviso the error can strictly increase, so the unconditional
claim fails. -/
theorem convergence_monotone_of_converged (structural bending reinforcement : List Constraint)
    (s : ℝ) (pos : ℕ → ℝ)
    (hfix : relaxPass structural bending reinforcement s
        (relaxLoop structural bending reinforcement s 8 pos) =
      relaxLoop structural bending reinforcement s 8 pos) :
    totalErrSq (structural ++ bending ++ reinforcement)
        (relaxLoop structural bending reinforcement s 20 pos) ≤
      totalErrSq (structural ++ bending ++ reinforcement)
        (relaxLoop structural bending reinforcement s 8 pos) := by
  have hstep : ∀ m, relaxLoop structural bending reinforcement s (8 + m) pos =
      relaxLoop structural bending reinforcement s 8 pos := by
    intro m
    induction m with
    | zero => rfl
    | succ k ih =>
      have : 8 + (k + 1) = (8 + k) + 1 := by omega
      rw [this, relaxLoop_succ, ih, hfix]
  have h20 : relaxLoop structural bending reinforcement s 20 pos =
      relaxLoop structural bending reinforcement s 8 pos := by
    have : (20 : ℕ) = 8 + 12 := by norm_num
    rw [this]
    exact hstep 12
  rw [h20]

/-- Witness for C7 (amended): the single rest-length-2 constraint on the
two-particle buffer is converged after 8 iterations, and the 20-iteration
error is then no larger. -/
theorem convergence_monotone_of_converged_witness :
    totalErrSq ([(0, 1, (2 : ℝ))] ++ [] ++ [])
        (relaxLoop [(0, 1, (2 : ℝ))] [] [] 0.3 20 posPair) ≤
      totalErrSq ([(0, 1, (2 : ℝ))] ++ [] ++ [])
        (relaxLoop [(0, 1, (2 : ℝ))] [] [] 0.3 8 posPair) := by
  have hrest : ∀ c ∈ [(0, 1, (2 : ℝ))] ++ ([] : List Constraint) ++ [], pairDist posPair c = c.2.2 := by
    intro c hc
    simp only [List.append_nil, List.mem_singleton] at hc
    subst hc
    exact posPair_dist
  have h8 : relaxLoop [(0, 1, (2 : ℝ))] [] [] 0.3 8 posPair = posPair :=
    relaxLoop_fixed _ _ _ _ _ _ (relaxPass_at_rest _ _ _ _ _ hrest)
  exact convergence_monotone_of_converged [(0, 1, (2 : ℝ))] [] [] 0.3 posPair
    (by rw [h8]; exact relaxPass_at_rest _ _ _ _ _ hrest)

/-- Full simulation state: the two Verlet buffers plus the per-hand pinch
smoothing state (smoothedLeftPinchRef / smoothedRightPinchRef). -/
structure SimState where
  pos : ℕ → ℝ
  prev : ℕ → ℝ
  smL : Option (ℝ × ℝ × ℝ)
  smR : Option (ℝ × ℝ × ℝ)

/-- THREE.Vector3.lerp: move a fraction t from a toward b. -/
noncomputable def lerp3 (a b : ℝ × ℝ × ℝ) (t : ℝ) : ℝ × ℝ × ℝ :=
  (a.1 + (b.1 - a.1) * t, a.2.1 + (b.2.1 - a.2.1) * t, a.2.2 + (b.2.2 - a.2.2) * t)

/-- The smoothed pinch position for this iteration: the raw target when
the filter state is empty, otherwise a lerp by PINCH_DAMPING = 0.3. -/
noncomputable def smoothedOf (prev : Option (ℝ × ℝ × ℝ)) (target : ℝ × ℝ × ℝ) : ℝ × ℝ × ℝ :=
  match prev with
  | none => target
  | some v => lerp3 v target 0.3

/-- Pin the actively dragged vertex to the drag target and kill its
velocity, mirroring Cloth.tsx lines 390-402. -/
noncomputable def applyDragPin (drag : Drag) (s : SimState) : SimState :=
  if drag.active = true then
    let idx := drag.vertexIndex * 3
    { s with
      pos := upd (upd (upd s.pos idx drag.tx) (idx + 1) drag.ty) (idx + 2) drag.tz,
      prev := upd (upd (upd s.prev idx drag.tx) (idx + 1) drag.ty) (idx + 2) drag.tz }
  else s

/-- Left-hand pinch pinning, mirroring Cloth.tsx lines 405-427: the left
hand maps to the top-right grid corner (cols - 1, 0); an inactive pinch
clears the smoothing state. -/
noncomputable def applyLeftPinch (cols : ℕ) (input : Option (ℝ × ℝ × ℝ)) (s : SimState) :
    SimState :=
  match input with
  | none => { s with smL := none }
  | some target =>
    let sm := smoothedOf s.smL target
    let idx := getIdx (cols - 1) 0 cols * 3
    { pos := upd (upd (upd s.pos idx sm.1) (idx + 1) sm.2.1) (idx + 2) sm.2.2,
      prev := upd (upd (upd s.prev idx sm.1) (idx + 1) sm.2.1) (idx + 2) sm.2.2,
      smL := some sm, smR := s.smR }

/-- Right-hand pinch pinning, mirroring Cloth.tsx lines 429-451: the
right hand maps to the top-left grid corner (0, 0). -/
noncomputable def applyRightPinch (cols : ℕ) (input : Option (ℝ × ℝ × ℝ)) (s : SimState) :
    SimState :=
  match input with
  | none => { s with smR := none }
  | some target =>
    let sm := smoothedOf s.smR target
    let idx := getIdx 0 0 cols * 3
    { pos := upd (upd (upd s.pos idx sm.1) (idx + 1) sm.2.1) (idx + 2) sm.2.2,
      prev := upd (upd (upd s.prev idx sm.1) (idx + 1) sm.2.1) (idx + 2) sm.2.2,
      smL := s.smL, smR := some sm }

/-- The pin phase of one relaxation iteration: drag pin, then left pinch,
then right pinch, in source order. -/
noncomputable def pinPhase (cols : ℕ) (drag : Drag) (lh rh : Option (ℝ × ℝ × ℝ))
    (s : SimState) : SimState :=
  applyRightPinch cols rh (applyLeftPinch cols lh (applyDragPin drag s))

/-- One full relaxation iteration of Cloth.tsx lines 381-543: constraint
solving, pin application, then per-particle sphere and floor collision. -/
noncomputable def relaxIteration (cfg : Config) (cols count : ℕ)
    (structural bending reinforcement : List Constraint) (drag : Drag)
    (lh rh : Option (ℝ × ℝ × ℝ)) (s : SimState) : SimState :=
  let s1 := { s with pos := relaxPass structural bending reinforcement cfg.stiffness s.pos }
  let s2 := pinPhase cols drag lh rh s1
  let p := collidePass cfg drag count ⟨s2.pos, s2.prev⟩
  { s2 with pos := p.pos, prev := p.prev }

/-- Iteration count of Cloth.tsx lines 376-377. -/
noncomputable def iterationsCount (resolution : ℕ) (stiffness : ℝ) : ℕ :=
  if stiffness > 0.8 then 20 else if resolution > 40 then 12 else 8

/-- Verlet integration over the full simulation state. -/
noncomputable def integrateS (s : SimState) (count : ℕ) : SimState :=
  let p := integrate ⟨s.pos, s.prev⟩ count
  { s with pos := p.pos, prev := p.prev }

/-- One complete tick of the useFrame callback: integration followed by
the configured number of relaxation iterations. -/
noncomputable def tick (cfg : Config) (resolution cols count : ℕ)
    (structural bending reinforcement : List Constraint) (drag : Drag)
    (lh rh : Option (ℝ × ℝ × ℝ)) (s : SimState) : SimState :=
  (List.range (iterationsCount resolution cfg.stiffness)).foldl
    (fun st _ => relaxIteration cfg cols count structural bending reinforcement drag lh rh st)
    (integrateS s count)

/-- Rest length computed by addConstraint in Cloth.tsx lines 134-141 from
the two flat particle indices and the grid spacing. -/
noncomputable def restLen (cols resolution : ℕ) (width height : ℝ) (p1 p2 : ℕ) : ℝ :=
  let x1 := ((p1 % cols : ℕ) : ℝ) * (width / (resolution : ℝ))
  let y1 := ((p1 / cols : ℕ) : ℝ) * (height / (resolution : ℝ))
  let x2 := ((p2 % cols : ℕ) : ℝ) * (width / (resolution : ℝ))
  let y2 := ((p2 / cols : ℕ) : ℝ) * (height / (resolution : ℝ))
  Real.sqrt ((x1 - x2) ^ 2 + (y1 - y2) ^ 2)

/-- Per-cell structural constraints (orthogonal neighbors plus both
shear diagonals), in source order. -/
noncomputable def cellStructural (cols rows resolution : ℕ) (width height : ℝ) (x y : ℕ) :
    List Constraint :=
  let i := getIdx x y cols
  let rl := fun p1 p2 => restLen cols resolution width height p1 p2
  (if x < cols - 1 then [(i, getIdx (x + 1) y cols, rl i (getIdx (x + 1) y cols))] else []) ++
  (if y < rows - 1 then [(i, getIdx x (y + 1) cols, rl i (getIdx x (y + 1) cols))] else []) ++
  (if x < cols - 1 ∧ y < rows - 1 then
    [(i, getIdx (x + 1) (y + 1) cols, rl i (getIdx (x + 1) (y + 1) cols)),
     (getIdx (x + 1) y cols, getIdx x (y + 1) cols,
       rl (getIdx (x + 1) y cols) (getIdx x (y + 1) cols))]
  else [])

/-- Per-cell bending constraints (skip-one neighbors), in source order. -/
noncomputable def cellBending (cols rows resolution : ℕ) (width height : ℝ) (x y : ℕ) :
    List Constraint :=
  let i := getIdx x y cols
  let rl := fun p1 p2 => restLen cols resolution width height p1 p2
  (if x < cols - 2 then [(i, getIdx (x + 2) y cols, rl i (getIdx (x + 2) y cols))] else []) ++
  (if y < rows - 2 then [(i, getIdx x (y + 2) cols, rl i (getIdx x (y + 2) cols))] else []) ++
  (if x < cols - 2 ∧ y < rows - 2 then
    [(i, getIdx (x + 2) (y + 2) cols, rl i (getIdx (x + 2) (y + 2) cols))]
  else [])

/-- Reinforcement stride of Cloth.tsx line 167. -/
def strideOf (resolution : ℕ) : ℕ := max 3 (resolution / 6)

/-- Per-cell reinforcement constraints (long-range orthogonal and both
diagonal directions), in source order. -/
noncomputable def cellReinforcement (cols rows resolution : ℕ) (width height : ℝ) (x y : ℕ) :
    List Constraint :=
  let i := getIdx x y cols
  let rl := fun p1 p2 => restLen cols resolution width height p1 p2
  let stride := strideOf resolution
  (if x < cols - stride then
    [(i, getIdx (x + stride) y cols, rl i (getIdx (x + stride) y cols))] else []) ++
  (if y < rows - stride then
    [(i, getIdx x (y + stride) cols, rl i (getIdx x (y + stride) cols))] else []) ++
  (if x < cols - stride ∧ y < rows - stride then
    [(i, getIdx (x + stride) (y + stride) cols, rl i (getIdx (x + stride) (y + stride) cols))]
  else []) ++
  (if stride ≤ x ∧ y < rows - stride then
    [(i, getIdx (x - stride) (y + stride) cols, rl i (getIdx (x - stride) (y + stride) cols))]
  else [])

/-- Row-major traversal of the grid cells, as the nested loops of the
constraint builder. -/
noncomputable def buildRows (cols rows : ℕ) (cell : ℕ → ℕ → List Constraint) :
    List Constraint :=
  (List.range rows).flatMap fun y => (List.range cols).flatMap fun x => cell x y

/-- The structural constraint list of the builder. -/
noncomputable def structuralList (cols rows resolution : ℕ) (width height : ℝ) :
    List Constraint :=
  buildRows cols rows (cellStructural cols rows resolution width height)

/-- The bending constraint list of the builder. -/
noncomputable def bendingList (cols rows resolution : ℕ) (width height : ℝ) :
    List Constraint :=
  buildRows cols rows (cellBending cols rows resolution width height)

/-- The reinforcement constraint list of the builder. -/
noncomputable def reinforcementList (cols rows resolution : ℕ) (width height : ℝ) :
    List Constraint :=
  buildRows cols rows (cellReinforcement cols rows resolution width height)

/-- The flat rest-grid layout written by the initial setup effect of
Cloth.tsx lines 191-213, shifted by the cloth position (ox, oy, oz). -/
noncomputable def flatPos (cols resolution : ℕ) (width height ox oy oz : ℝ) : ℕ → ℝ :=
  fun n =>
    let i := n / 3
    if n % 3 = 0 then ((i % cols : ℕ) : ℝ) / (resolution : ℝ) * width - width / 2 + ox
    else if n % 3 = 1 then oy
    else ((i / cols : ℕ) : ℝ) / (resolution : ℝ) * height - height / 2 + oz

theorem flatPos_x (cols resolution : ℕ) (width height ox oy oz : ℝ) (i : ℕ) :
    flatPos cols resolution width height ox oy oz (i * 3) =
      ((i % cols : ℕ) : ℝ) / (resolution : ℝ) * width - width / 2 + ox := by
  simp only [flatPos]
  rw [if_pos (show i * 3 % 3 = 0 by omega), show i * 3 / 3 = i by omega]

theorem flatPos_y (cols resolution : ℕ) (width height ox oy oz : ℝ) (i : ℕ) :
    flatPos cols resolution width height ox oy oz (i * 3 + 1) = oy := by
  simp only [flatPos]
  rw [if_neg (show ¬ (i * 3 + 1) % 3 = 0 by omega), if_pos (show (i * 3 + 1) % 3 = 1 by omega)]

theorem flatPos_z (cols resolution : ℕ) (width height ox oy oz : ℝ) (i : ℕ) :
    flatPos cols resolution width height ox oy oz (i * 3 + 2) =
      ((i / cols : ℕ) : ℝ) / (resolution : ℝ) * height - height / 2 + oz := by
  simp only [flatPos]
  rw [if_neg (show ¬ (i * 3 + 2) % 3 = 0 by omega),
    if_neg (show ¬ (i * 3 + 2) % 3 = 1 by omega), show (i * 3 + 2) / 3 = i by omega]

/-- On the flat rest grid every pair distance equals the rest length the
builder computes for that pair. -/
theorem pairDist_flat (cols resolution : ℕ) (width height ox oy oz : ℝ) (c : Constraint) :
    pairDist (flatPos cols resolution width height ox oy oz) c =
      restLen cols resolution width height c.1 c.2.1 := by
  rw [pairDist, pairDistSq, restLen]
  rw [flatPos_x, flatPos_x, flatPos_y, flatPos_y, flatPos_z, flatPos_z]
  congr 1
  ring

theorem mem_buildRows {cols rows : ℕ} {cell : ℕ → ℕ → List Constraint} {c : Constraint}
    (hc : c ∈ buildRows cols rows cell) : ∃ x y, x < cols ∧ y < rows ∧ c ∈ cell x y := by
  simp only [buildRows, List.mem_flatMap, List.mem_range] at hc
  obtain ⟨y, hy, x, hx, hmem⟩ := hc
  exact ⟨x, y, hx, hy, hmem⟩

theorem structuralList_shape (cols rows resolution : ℕ) (width height : ℝ) :
    ∀ c ∈ structuralList cols rows resolution width height,
      c.2.2 = restLen cols resolution width height c.1 c.2.1 := by
  intro c hc
  obtain ⟨x, y, _, _, hmem⟩ := mem_buildRows hc
  simp only [cellStructural, List.mem_append] at hmem
  rcases hmem with (h | h) | h <;> split_ifs at h <;>
    simp only [List.mem_singleton, List.mem_cons, List.not_mem_nil, or_false] at h
  · subst h
    rfl
  · subst h
    rfl
  · rcases h with h | h <;> subst h <;> rfl

theorem bendingList_shape (cols rows resolution : ℕ) (width height : ℝ) :
    ∀ c ∈ bendingList cols rows resolution width height,
      c.2.2 = restLen cols resolution width height c.1 c.2.1 := by
  intro c hc
  obtain ⟨x, y, _, _, hmem⟩ := mem_buildRows hc
  simp only [cellBending, List.mem_append] at hmem
  rcases hmem with (h | h) | h <;> split_ifs at h <;>
    simp only [List.mem_singleton, List.not_mem_nil] at h <;> subst h <;> rfl

theorem reinforcementList_shape (cols rows resolution : ℕ) (width height : ℝ) :
    ∀ c ∈ reinforcementList cols rows resolution width height,
      c.2.2 = restLen cols resolution width height c.1 c.2.1 := by
  intro c hc
  obtain ⟨x, y, _, _, hmem⟩ := mem_buildRows hc
  simp only [cellReinforcement, List.mem_append] at hmem
  rcases hmem with ((h | h) | h) | h <;> split_ifs at h <;>
    simp only [List.mem_singleton, List.not_mem_nil] at h <;> subst h <;> rfl

/-- A relaxation pass over the three built lists leaves any flat rest
grid unchanged. -/
theorem relaxPass_flat (cols rows resolution : ℕ) (width height ox oy oz : ℝ) (s : ℝ) :
    relaxPass (structuralList cols rows resolution width height)
      (bendingList cols rows resolution width height)
      (reinforcementList cols rows resolution width height) s
      (flatPos cols resolution width height ox oy oz) =
      flatPos cols resolution width height ox oy oz := by
  apply relaxPass_at_rest
  intro c hc
  rw [pairDist_flat]
  rcases List.mem_append.mp hc with hc' | hR
  · rcases List.mem_append.mp hc' with hS | hB
    · exact (structuralList_shape cols rows resolution width height c hS).symm
    · exact (bendingList_shape cols rows resolution width height c hB).symm
  · exact (reinforcementList_shape cols rows resolution width height c hR).symm

/-- Sphere resolution writes only the three coordinates of particle i. -/
theorem sphereResolve_frame (cfg : Config) (s : PState) (i n : ℕ) (h1 : n ≠ i * 3)
    (h2 : n ≠ i * 3 + 1) (h3 : n ≠ i * 3 + 2) :
    (sphereResolve cfg s i).pos n = s.pos n ∧ (sphereResolve cfg s i).prev n = s.prev n := by
  simp only [sphereResolve]
  split_ifs with hin hfr
  · dsimp only
    constructor <;>
      rw [upd_ne _ _ _ h3, upd_ne _ _ _ h2, upd_ne _ _ _ h1]
  · dsimp only
    constructor <;>
      rw [upd_ne _ _ _ h3, upd_ne _ _ _ h2, upd_ne _ _ _ h1]
  · exact ⟨rfl, rfl⟩

/-- Floor resolution writes only the three coordinates of particle i. -/
theorem floorResolve_frame (s : PState) (i n : ℕ) (h1 : n ≠ i * 3)
    (h2 : n ≠ i * 3 + 1) (h3 : n ≠ i * 3 + 2) :
    (floorResolve s i).pos n = s.pos n ∧ (floorResolve s i).prev n = s.prev n := by
  simp only [floorResolve]
  split_ifs with hy
  · dsimp only
    constructor
    · rw [upd_ne _ _ _ h2]
    · rw [upd_ne _ _ _ h3, upd_ne _ _ _ h1]
  · exact ⟨rfl, rfl⟩

/-- One collision body touches only particle i. -/
theorem collideStep_frame (cfg : Config) (drag : Drag) (s : PState) (i n : ℕ)
    (h1 : n ≠ i * 3) (h2 : n ≠ i * 3 + 1) (h3 : n ≠ i * 3 + 2) :
    (collideStep cfg drag s i).pos n = s.pos n ∧
      (collideStep cfg drag s i).prev n = s.prev n := by
  rw [collideStep]
  split_ifs
  · exact ⟨rfl, rfl⟩
  · have hs := sphereResolve_frame cfg s i n h1 h2 h3
    have hf := floorResolve_frame (sphereResolve cfg s i) i n h1 h2 h3
    exact ⟨hf.1.trans hs.1, hf.2.trans hs.2⟩

theorem collidePass_succ (cfg : Config) (drag : Drag) (m : ℕ) (s : PState) :
    collidePass cfg drag (m + 1) s = collideStep cfg drag (collidePass cfg drag m s) m := by
  rw [collidePass, List.range_succ, List.foldl_append, List.foldl_cons, List.foldl_nil]
  rfl

/-- Particles at or beyond the loop bound are untouched by the collision
pass. -/
theorem collidePass_frame (cfg : Config) (drag : Drag) (m : ℕ) (s : PState) (n : ℕ)
    (h : 3 * m ≤ n) :
    (collidePass cfg drag m s).pos n = s.pos n ∧
      (collidePass cfg drag m s).prev n = s.prev n := by
  induction m with
  | zero => exact ⟨rfl, rfl⟩
  | succ k ih =>
    have hk : 3 * k ≤ n := by omega
    rw [collidePass_succ]
    have hf := collideStep_frame cfg drag (collidePass cfg drag k s) k n (by omega) (by omega)
      (by omega)
    exact ⟨hf.1.trans (ih hk).1, hf.2.trans (ih hk).2⟩

/-- The final value of particle i under the collision pass is produced by
its own collision body, run on the state the pass has built so far. -/
theorem collidePass_at (cfg : Config) (drag : Drag) (count : ℕ) (s : PState) (i : ℕ)
    (hi : i < count) (k : ℕ) (hk : k < 3) :
    (collidePass cfg drag count s).pos (i * 3 + k) =
      (collideStep cfg drag (collidePass cfg drag i s) i).pos (i * 3 + k) ∧
    (collidePass cfg drag count s).prev (i * 3 + k) =
      (collideStep cfg drag (collidePass cfg drag i s) i).prev (i * 3 + k) := by
  induction count with
  | zero => omega
  | succ m ih =>
    rw [collidePass_succ]
    by_cases him : i < m
    · have hf := collideStep_frame cfg drag (collidePass cfg drag m s) m (i * 3 + k)
        (by omega) (by omega) (by omega)
      exact ⟨hf.1.trans (ih him).1, hf.2.trans (ih him).2⟩
    · have hieq : i = m := by omega
      subst hieq
      exact ⟨rfl, rfl⟩

/-- The squared center distance of particle i depends only on the three
position entries of particle i. -/
theorem sphereDistSq_congr (cfg : Config) (p q : ℕ → ℝ) (i : ℕ)
    (h0 : p (i * 3) = q (i * 3)) (h1 : p (i * 3 + 1) = q (i * 3 + 1))
    (h2 : p (i * 3 + 2) = q (i * 3 + 2)) :
    sphereDistSq cfg p i = sphereDistSq cfg q i := by
  rw [sphereDistSq, sphereDistSq, h0, h1, h2]

/-- A pair distance is unchanged under a per-coordinate uniform shift of
the two endpoints. -/
theorem pairDist_shift (p q : ℕ → ℝ) (c : Constraint) (t0 t1 t2 : ℝ)
    (ha : p (c.1 * 3) = q (c.1 * 3) + t0) (hb : p (c.1 * 3 + 1) = q (c.1 * 3 + 1) + t1)
    (hc : p (c.1 * 3 + 2) = q (c.1 * 3 + 2) + t2) (hd : p (c.2.1 * 3) = q (c.2.1 * 3) + t0)
    (he : p (c.2.1 * 3 + 1) = q (c.2.1 * 3 + 1) + t1)
    (hf : p (c.2.1 * 3 + 2) = q (c.2.1 * 3 + 2) + t2) :
    pairDist p c = pairDist q c := by
  rw [pairDist, pairDist]
  congr 1
  rw [pairDistSq, pairDistSq, ha, hb, hc, hd, he, hf]
  ring

/-- A particle outside the padded radius is untouched by the sphere. -/
theorem sphereResolve_no_contact (cfg : Config) (s : PState) (i : ℕ)
    (h : ¬ sphereDistSq cfg s.pos i <
      (cfg.sphereRadius + 0.08) * (cfg.sphereRadius + 0.08)) :
    sphereResolve cfg s i = s := by
  have h' : ¬ ((s.pos (i * 3) - cfg.sphereX) * (s.pos (i * 3) - cfg.sphereX) +
      (s.pos (i * 3 + 1) - cfg.sphereY) * (s.pos (i * 3 + 1) - cfg.sphereY) +
      (s.pos (i * 3 + 2) - cfg.sphereZ) * (s.pos (i * 3 + 2) - cfg.sphereZ) <
      (cfg.sphereRadius + 0.08) * (cfg.sphereRadius + 0.08)) := h
  simp only [sphereResolve]
  rw [if_neg h']

/-- A particle at or above the floor is untouched by the floor clamp. -/
theorem floorResolve_above (s : PState) (i : ℕ) (h : ¬ s.pos (i * 3 + 1) < -2.5) :
    floorResolve s i = s := by
  simp only [floorResolve]
  rw [if_neg h]

/-- A particle outside the sphere and above the floor passes through its
collision body unchanged. -/
theorem collideStep_id (cfg : Config) (drag : Drag) (s : PState) (i : ℕ)
    (hs : ¬ sphereDistSq cfg s.pos i <
      (cfg.sphereRadius + 0.08) * (cfg.sphereRadius + 0.08))
    (hf : ¬ s.pos (i * 3 + 1) < -2.5) : collideStep cfg drag s i = s := by
  rw [collideStep]
  split_ifs
  · rfl
  · rw [sphereResolve_no_contact cfg s i hs, floorResolve_above s i hf]

/-- In contact, both friction branches write the particle to
center + offset * (colRad / dist): the pushed and the snapped positions
coincide. -/
theorem sphereResolve_contact_pos (cfg : Config) (s : PState) (i : ℕ)
    (hin : sphereDistSq cfg s.pos i < (cfg.sphereRadius + 0.08) * (cfg.sphereRadius + 0.08))
    (hne : sphereDistSq cfg s.pos i ≠ 0) :
    ∀ k, k < 3 → (sphereResolve cfg s i).pos (i * 3 + k) =
      center cfg k + (s.pos (i * 3 + k) - center cfg k) *
        ((cfg.sphereRadius + 0.08) / Real.sqrt (sphereDistSq cfg s.pos i)) := by
  have hnn := sphereDistSq_nonneg cfg s.pos i
  have hd2 : Real.sqrt (sphereDistSq cfg s.pos i) * Real.sqrt (sphereDistSq cfg s.pos i) =
      sphereDistSq cfg s.pos i := Real.mul_self_sqrt hnn
  have hdne : Real.sqrt (sphereDistSq cfg s.pos i) ≠ 0 := by
    intro hz
    exact hne (by rw [← hd2, hz, mul_zero])
  intro k hk
  by_cases hfr : 0.60 ≤ (cfg.clothFriction + cfg.sphereFriction) * 0.5
  · rw [(sphereResolve_snap cfg s i hin hfr k hk).1, normalComp]
    ring
  · rw [((sphereResolve_slip cfg s i hin hfr) k hk).1, pushedPos]
    field_simp
    ring

/-- In contact the resolved particle sits at distance exactly
sphereRadius + 0.08 from the center, whatever the friction regime. -/
theorem sphereResolve_contact_distance (cfg : Config) (s : PState) (i : ℕ)
    (hin : sphereDistSq cfg s.pos i < (cfg.sphereRadius + 0.08) * (cfg.sphereRadius + 0.08))
    (hne : sphereDistSq cfg s.pos i ≠ 0) (hrad : 0 ≤ cfg.sphereRadius) :
    Real.sqrt (sphereDistSq cfg (sphereResolve cfg s i).pos i) = cfg.sphereRadius + 0.08 := by
  have h := sphereResolve_contact_pos cfg s i hin hne
  have e0 : (sphereResolve cfg s i).pos (i * 3) = center cfg 0 +
      (s.pos (i * 3) - center cfg 0) *
        ((cfg.sphereRadius + 0.08) / Real.sqrt (sphereDistSq cfg s.pos i)) := by
    have h' := h 0 (by norm_num)
    rwa [show i * 3 + 0 = i * 3 by omega] at h'
  have e1 := h 1 (by norm_num)
  have e2 := h 2 (by norm_num)
  have hnn := sphereDistSq_nonneg cfg s.pos i
  have hd2 : Real.sqrt (sphereDistSq cfg s.pos i) * Real.sqrt (sphereDistSq cfg s.pos i) =
      sphereDistSq cfg s.pos i := Real.mul_self_sqrt hnn
  have hdne : Real.sqrt (sphereDistSq cfg s.pos i) ≠ 0 := by
    intro hz
    exact hne (by rw [← hd2, hz, mul_zero])
  have hcol : (0 : ℝ) ≤ cfg.sphereRadius + 0.08 := by linarith
  have hsum : (s.pos (i * 3) - cfg.sphereX) * (s.pos (i * 3) - cfg.sphereX) +
      (s.pos (i * 3 + 1) - cfg.sphereY) * (s.pos (i * 3 + 1) - cfg.sphereY) +
      (s.pos (i * 3 + 2) - cfg.sphereZ) * (s.pos (i * 3 + 2) - cfg.sphereZ) =
      Real.sqrt (sphereDistSq cfg s.pos i) * Real.sqrt (sphereDistSq cfg s.pos i) := by
    rw [Real.mul_self_sqrt hnn]
    rfl
  have key : sphereDistSq cfg (sphereResolve cfg s i).pos i =
      (cfg.sphereRadius + 0.08) * (cfg.sphereRadius + 0.08) := by
    simp only [center] at e0 e1 e2
    norm_num at e0 e1 e2
    simp only [sphereDistSq]
    rw [e0, e1, e2]
    trans ((s.pos (i * 3) - cfg.sphereX) * (s.pos (i * 3) - cfg.sphereX) +
        (s.pos (i * 3 + 1) - cfg.sphereY) * (s.pos (i * 3 + 1) - cfg.sphereY) +
        (s.pos (i * 3 + 2) - cfg.sphereZ) * (s.pos (i * 3 + 2) - cfg.sphereZ)) *
        ((cfg.sphereRadius + 0.08) * (cfg.sphereRadius + 0.08)) /
        (Real.sqrt (sphereDistSq cfg s.pos i) * Real.sqrt (sphereDistSq cfg s.pos i))
    · ring
    · rw [hsum]
      exact mul_div_cancel_left₀ _ (mul_ne_zero hdne hdne)
  rw [key]
  exact sqrt_of_sq hcol rfl

/-- In contact the resolved y coordinate stays at or above the bottom of
the padded sphere. -/
theorem sphereResolve_contact_y (cfg : Config) (s : PState) (i : ℕ)
    (hin : sphereDistSq cfg s.pos i < (cfg.sphereRadius + 0.08) * (cfg.sphereRadius + 0.08))
    (hne : sphereDistSq cfg s.pos i ≠ 0) (hrad : 0 ≤ cfg.sphereRadius) :
    cfg.sphereY - (cfg.sphereRadius + 0.08) ≤ (sphereResolve cfg s i).pos (i * 3 + 1) := by
  have h1 := sphereResolve_contact_pos cfg s i hin hne 1 (by norm_num)
  have hnn := sphereDistSq_nonneg cfg s.pos i
  have hd2 : Real.sqrt (sphereDistSq cfg s.pos i) * Real.sqrt (sphereDistSq cfg s.pos i) =
      sphereDistSq cfg s.pos i := Real.mul_self_sqrt hnn
  have hdne : Real.sqrt (sphereDistSq cfg s.pos i) ≠ 0 := by
    intro hz
    exact hne (by rw [← hd2, hz, mul_zero])
  have hdpos : 0 < Real.sqrt (sphereDistSq cfg s.pos i) :=
    lt_of_le_of_ne (Real.sqrt_nonneg _) (Ne.symm hdne)
  have hcol : (0 : ℝ) ≤ cfg.sphereRadius + 0.08 := by linarith
  have ha1 : (s.pos (i * 3 + 1) - cfg.sphereY) * (s.pos (i * 3 + 1) - cfg.sphereY) ≤
      sphereDistSq cfg s.pos i := by
    simp only [sphereDistSq]
    nlinarith [mul_self_nonneg (s.pos (i * 3) - cfg.sphereX),
      mul_self_nonneg (s.pos (i * 3 + 2) - cfg.sphereZ)]
  have habs : |s.pos (i * 3 + 1) - cfg.sphereY| ≤ Real.sqrt (sphereDistSq cfg s.pos i) := by
    rw [← Real.sqrt_mul_self_eq_abs]
    exact Real.sqrt_le_sqrt ha1
  have hb : -(Real.sqrt (sphereDistSq cfg s.pos i)) ≤ s.pos (i * 3 + 1) - cfg.sphereY :=
    neg_le_of_abs_le habs
  rw [h1]
  have hcy : center cfg 1 = cfg.sphereY := by
    simp [center]
  rw [hcy]
  have key : -(cfg.sphereRadius + 0.08) ≤ (s.pos (i * 3 + 1) - cfg.sphereY) *
      ((cfg.sphereRadius + 0.08) / Real.sqrt (sphereDistSq cfg s.pos i)) := by
    have hfrac : 0 ≤ (cfg.sphereRadius + 0.08) / Real.sqrt (sphereDistSq cfg s.pos i) :=
      div_nonneg hcol (le_of_lt hdpos)
    have := mul_le_mul_of_nonneg_right hb hfrac
    calc -(cfg.sphereRadius + 0.08)
        = -(Real.sqrt (sphereDistSq cfg s.pos i)) *
            ((cfg.sphereRadius + 0.08) / Real.sqrt (sphereDistSq cfg s.pos i)) := by
          field_simp
          ring
      _ ≤ (s.pos (i * 3 + 1) - cfg.sphereY) *
            ((cfg.sphereRadius + 0.08) / Real.sqrt (sphereDistSq cfg s.pos i)) := this
  linarith

/-- After the sphere and floor bodies run for particle i, its distance
from the sphere center is at least the sphere radius, provided the padded
sphere does not dip below the floor and the particle was not exactly at
the center. -/
theorem collide_dist_ge (cfg : Config) (s : PState) (i : ℕ) (hrad : 0 ≤ cfg.sphereRadius)
    (hfloor : -2.5 ≤ cfg.sphereY - (cfg.sphereRadius + 0.08))
    (hne : sphereDistSq cfg s.pos i ≠ 0) :
    cfg.sphereRadius ≤
      Real.sqrt (sphereDistSq cfg (floorResolve (sphereResolve cfg s i) i).pos i) := by
  have hnn := sphereDistSq_nonneg cfg s.pos i
  have hcol : (0 : ℝ) ≤ cfg.sphereRadius + 0.08 := by linarith
  by_cases hin : sphereDistSq cfg s.pos i <
      (cfg.sphereRadius + 0.08) * (cfg.sphereRadius + 0.08)
  · have hdist := sphereResolve_contact_distance cfg s i hin hne hrad
    have hy := sphereResolve_contact_y cfg s i hin hne hrad
    have hnofloor : ¬ (sphereResolve cfg s i).pos (i * 3 + 1) < -2.5 := by
      push_neg
      linarith
    rw [floorResolve_above _ _ hnofloor, hdist]
    linarith
  · rw [sphereResolve_no_contact cfg s i hin]
    have hge : (cfg.sphereRadius + 0.08) * (cfg.sphereRadius + 0.08) ≤
        sphereDistSq cfg s.pos i := le_of_not_lt hin
    by_cases hy : s.pos (i * 3 + 1) < -2.5
    · have hkey : (cfg.sphereRadius + 0.08) * (cfg.sphereRadius + 0.08) ≤
          sphereDistSq cfg (floorResolve s i).pos i := by
        simp only [floorResolve]
        rw [if_pos hy]
        dsimp only
        simp only [sphereDistSq]
        rw [upd_ne _ _ _ (show i * 3 ≠ i * 3 + 1 by omega), upd_eq,
          upd_ne _ _ _ (show i * 3 + 2 ≠ i * 3 + 1 by omega)]
        have hby : cfg.sphereRadius + 0.08 ≤ cfg.sphereY - (-2.5) := by linarith
        nlinarith [mul_self_nonneg (s.pos (i * 3) - cfg.sphereX),
          mul_self_nonneg (s.pos (i * 3 + 2) - cfg.sphereZ),
          mul_self_nonneg (cfg.sphereY + 2.5)]
      calc cfg.sphereRadius ≤ cfg.sphereRadius + 0.08 := by linarith
        _ = Real.sqrt ((cfg.sphereRadius + 0.08) * (cfg.sphereRadius + 0.08)) :=
            (sqrt_of_sq hcol rfl).symm
        _ ≤ Real.sqrt (sphereDistSq cfg (floorResolve s i).pos i) :=
            Real.sqrt_le_sqrt hkey
    · rw [floorResolve_above s i hy]
      calc cfg.sphereRadius ≤ cfg.sphereRadius + 0.08 := by linarith
        _ = Real.sqrt ((cfg.sphereRadius + 0.08) * (cfg.sphereRadius + 0.08)) :=
            (sqrt_of_sq hcol rfl).symm
        _ ≤ Real.sqrt (sphereDistSq cfg s.pos i) := Real.sqrt_le_sqrt hge

/-- The relaxation iterations of a tick, as an explicit loop. -/
noncomputable def iterLoop (cfg : Config) (cols count : ℕ)
    (structural bending reinforcement : List Constraint) (drag : Drag)
    (lh rh : Option (ℝ × ℝ × ℝ)) (n : ℕ) (s : SimState) : SimState :=
  (List.range n).foldl
    (fun st _ => relaxIteration cfg cols count structural bending reinforcement drag lh rh st) s

theorem iterLoop_succ (cfg : Config) (cols count : ℕ)
    (structural bending reinforcement : List Constraint) (drag : Drag)
    (lh rh : Option (ℝ × ℝ × ℝ)) (n : ℕ) (s : SimState) :
    iterLoop cfg cols count structural bending reinforcement drag lh rh (n + 1) s =
      relaxIteration cfg cols count structural bending reinforcement drag lh rh
        (iterLoop cfg cols count structural bending reinforcement drag lh rh n s) := by
  rw [iterLoop, List.range_succ, List.foldl_append, List.foldl_cons, List.foldl_nil]
  rfl

theorem tick_eq_iterLoop (cfg : Config) (resolution cols count : ℕ)
    (structural bending reinforcement : List Constraint) (drag : Drag)
    (lh rh : Option (ℝ × ℝ × ℝ)) (s : SimState) :
    tick cfg resolution cols count structural bending reinforcement drag lh rh s =
      iterLoop cfg cols count structural bending reinforcement drag lh rh
        (iterationsCount resolution cfg.stiffness) (integrateS s count) := rfl

theorem iterationsCount_pos (resolution : ℕ) (stiffness : ℝ) :
    1 ≤ iterationsCount resolution stiffness := by
  rw [iterationsCount]
  split_ifs <;> norm_num

/-- The state handed to the collision pass of the last relaxation
iteration of a tick. -/
noncomputable def preCollideState (cfg : Config) (resolution cols count : ℕ)
    (structural bending reinforcement : List Constraint) (drag : Drag)
    (lh rh : Option (ℝ × ℝ × ℝ)) (s : SimState) : SimState :=
  let t := iterLoop cfg cols count structural bending reinforcement drag lh rh
    (iterationsCount resolution cfg.stiffness - 1) (integrateS s count)
  pinPhase cols drag lh rh
    { t with pos := relaxPass structural bending reinforcement cfg.stiffness t.pos }

/-- A tick ends with the collision pass applied to the last pre-collision
state. -/
theorem tick_last_iteration (cfg : Config) (resolution cols count : ℕ)
    (structural bending reinforcement : List Constraint) (drag : Drag)
    (lh rh : Option (ℝ × ℝ × ℝ)) (s : SimState) :
    tick cfg resolution cols count structural bending reinforcement drag lh rh s =
      { preCollideState cfg resolution cols count structural bending reinforcement drag lh rh
          s with
        pos := (collidePass cfg drag count
          ⟨(preCollideState cfg resolution cols count structural bending reinforcement drag
              lh rh s).pos,
            (preCollideState cfg resolution cols count structural bending reinforcement drag
              lh rh s).prev⟩).pos,
        prev := (collidePass cfg drag count
          ⟨(preCollideState cfg resolution cols count structural bending reinforcement drag
              lh rh s).pos,
            (preCollideState cfg resolution cols count structural bending reinforcement drag
              lh rh s).prev⟩).prev } := by
  have hN : iterationsCount resolution cfg.stiffness =
      (iterationsCount resolution cfg.stiffness - 1) + 1 := by
    have := iterationsCount_pos resolution cfg.stiffness
    omega
  rw [tick_eq_iterLoop, hN, iterLoop_succ]
  rfl

/-- C4 (amended): after a complete tick every particle that is not
drag-pinned sits at distance at least sphereRadius from the sphere
center, provided the padded collision sphere does not extend below the
floor plane y = -2.5 and the particle does not enter its collision body
exactly at the sphere center. Without the floor proviso the property
fails: the floor clamp that runs after the sphere push can move a
particle back inside the sphere. -/
theorem tick_sphere_nonpenetration (cfg : Config) (resolution cols count : ℕ)
    (structural bending reinforcement : List Constraint) (drag : Drag)
    (lh rh : Option (ℝ × ℝ × ℝ)) (s : SimState) (i : ℕ) (hrad : 0 ≤ cfg.sphereRadius)
    (hfloor : -2.5 ≤ cfg.sphereY - (cfg.sphereRadius + 0.08)) (hi : i < count)
    (hdrag : ¬ (drag.active = true ∧ i = drag.vertexIndex))
    (hne : sphereDistSq cfg
      (preCollideState cfg resolution cols count structural bending reinforcement drag lh rh
        s).pos i ≠ 0) :
    cfg.sphereRadius ≤ Real.sqrt (sphereDistSq cfg
      (tick cfg resolution cols count structural bending reinforcement drag lh rh s).pos i) := by
  set t := preCollideState cfg resolution cols count structural bending reinforcement drag lh rh
    s with ht
  have htick := tick_last_iteration cfg resolution cols count structural bending reinforcement
    drag lh rh s
  set mid := collidePass cfg drag i ⟨t.pos, t.prev⟩ with hmiddef
  have hstep : collideStep cfg drag mid i = floorResolve (sphereResolve cfg mid i) i := by
    rw [collideStep, if_neg hdrag]
  have hreads : ∀ k, k < 3 →
      (tick cfg resolution cols count structural bending reinforcement drag lh rh s).pos
        (i * 3 + k) =
      (floorResolve (sphereResolve cfg mid i) i).pos (i * 3 + k) := by
    intro k hk
    rw [htick]
    dsimp only
    rw [(collidePass_at cfg drag count ⟨t.pos, t.prev⟩ i hi k hk).1, hstep]
  have hmid : ∀ k, k < 3 → mid.pos (i * 3 + k) = t.pos (i * 3 + k) := fun k _ =>
    (collidePass_frame cfg drag i ⟨t.pos, t.prev⟩ (i * 3 + k) (by omega)).1
  have hnem : sphereDistSq cfg mid.pos i ≠ 0 := by
    have h0 := hmid 0 (by norm_num)
    rw [show i * 3 + 0 = i * 3 by omega] at h0
    rw [sphereDistSq_congr cfg mid.pos t.pos i h0 (hmid 1 (by norm_num))
      (hmid 2 (by norm_num))]
    exact hne
  have hdeq : sphereDistSq cfg
      (tick cfg resolution cols count structural bending reinforcement drag lh rh s).pos i =
      sphereDistSq cfg (floorResolve (sphereResolve cfg mid i) i).pos i := by
    have h0 := hreads 0 (by norm_num)
    rw [show i * 3 + 0 = i * 3 by omega] at h0
    exact sphereDistSq_congr cfg _ _ i h0 (hreads 1 (by norm_num)) (hreads 2 (by norm_num))
  rw [hdeq]
  exact collide_dist_ge cfg mid i hrad hfloor hnem

/-- A Verlet state whose y entries carry an implied upward-compensating
velocity integrates to an exact standstill: the gravity displacement and
the dragged velocity cancel, and previous catches up to current. -/
theorem integrate_gravity_cancel (p : ℕ → ℝ) (count : ℕ) :
    integrate ⟨p, fun n => if n % 3 = 1 ∧ n / 3 < count then p n + GRAVITY / 0.99 else p n⟩
      count = ⟨p, p⟩ := by
  set q : ℕ → ℝ := fun n => if n % 3 = 1 ∧ n / 3 < count then p n + GRAVITY / 0.99 else p n
    with hq
  have hq_of : ∀ n, ¬ (n % 3 = 1 ∧ n / 3 < count) → q n = p n := by
    intro n h
    rw [hq]
    dsimp only
    rw [if_neg h]
  have hq_y : ∀ n, n % 3 = 1 → n / 3 < count → q n = p n + GRAVITY / 0.99 := by
    intro n h1 h2
    rw [hq]
    dsimp only
    rw [if_pos ⟨h1, h2⟩]
  have hpos : (integrate ⟨p, q⟩ count).pos = p := by
    funext n
    by_cases hn : n / 3 < count
    · obtain ⟨i, k, hk3, rfl⟩ : ∃ i k, k < 3 ∧ n = i * 3 + k :=
        ⟨n / 3, n % 3, by omega, by omega⟩
      have hi : i < count := by omega
      have happ := integrate_apply ⟨p, q⟩ count i hi
      interval_cases k
      · rw [show i * 3 + 0 = i * 3 by omega]
        rw [happ.2.2.2.1]
        dsimp only
        rw [hq_of (i * 3) (by omega)]
        ring
      · rw [happ.2.2.2.2.1]
        dsimp only
        rw [hq_y (i * 3 + 1) (by omega) (by omega)]
        have h99 : (GRAVITY / 0.99) * (0.99 : ℝ) = GRAVITY := by
          field_simp
        rw [DRAG]
        ring_nf
      · rw [happ.2.2.2.2.2]
        dsimp only
        rw [hq_of (i * 3 + 2) (by omega)]
        ring
    · exact (integrate_frame ⟨p, q⟩ count n (by omega)).1
  have hprev : (integrate ⟨p, q⟩ count).prev = p := by
    funext n
    by_cases hn : n / 3 < count
    · obtain ⟨i, k, hk3, rfl⟩ : ∃ i k, k < 3 ∧ n = i * 3 + k :=
        ⟨n / 3, n % 3, by omega, by omega⟩
      have hi : i < count := by omega
      have happ := integrate_apply ⟨p, q⟩ count i hi
      interval_cases k
      · rw [show i * 3 + 0 = i * 3 by omega]
        rw [happ.1]
      · rw [happ.2.1]
      · rw [happ.2.2.1]
    · rw [(integrate_frame ⟨p, q⟩ count n (by omega)).2]
      exact hq_of n (by omega)
  calc integrate ⟨p, q⟩ count
      = ⟨(integrate ⟨p, q⟩ count).pos, (integrate ⟨p, q⟩ count).prev⟩ := rfl
    _ = ⟨p, p⟩ := by rw [hpos, hprev]

/-- A collision pass over particles whose bodies are all no-ops is the
identity. -/
theorem collidePass_id (cfg : Config) (drag : Drag) (count : ℕ) (s : PState)
    (h : ∀ j, j < count → collideStep cfg drag s j = s) :
    collidePass cfg drag count s = s := by
  induction count with
  | zero => rfl
  | succ m ih =>
    rw [collidePass_succ, ih fun j hj => h j (by omega), h m (by omega)]

/-- With no drag and no pinches the pin phase leaves a state with empty
smoothing filters unchanged. -/
theorem pinPhase_inactive (cols : ℕ) (drag : Drag) (hd : drag.active = false)
    (pos prev : ℕ → ℝ) :
    pinPhase cols drag none none ⟨pos, prev, none, none⟩ = ⟨pos, prev, none, none⟩ := by
  rw [pinPhase, applyDragPin, if_neg (by simp [hd])]
  rfl

/-- One relaxation iteration with inactive interactions on a state whose
constraint phase is the identity reduces to its collision pass. -/
theorem relaxIteration_eval (cfg : Config) (cols count : ℕ)
    (structural bending reinforcement : List Constraint) (drag : Drag)
    (hd : drag.active = false) (pos prev : ℕ → ℝ)
    (hpass : relaxPass structural bending reinforcement cfg.stiffness pos = pos) :
    relaxIteration cfg cols count structural bending reinforcement drag none none
      ⟨pos, prev, none, none⟩ =
      ⟨(collidePass cfg drag count ⟨pos, prev⟩).pos,
        (collidePass cfg drag count ⟨pos, prev⟩).prev, none, none⟩ := by
  rw [relaxIteration]
  dsimp only
  rw [hpass, pinPhase_inactive cols drag hd pos prev]

/-- A prev buffer carrying the exact upward velocity that cancels the
gravity displacement: integration leaves the position buffer unchanged
and previous catches up to current. -/
noncomputable def gravPrev (p : ℕ → ℝ) (count : ℕ) : ℕ → ℝ :=
  fun n => if n % 3 = 1 ∧ n / 3 < count then p n + GRAVITY / 0.99 else p n

theorem integrateS_gravPrev (p : ℕ → ℝ) (count : ℕ) (sl sr : Option (ℝ × ℝ × ℝ)) :
    integrateS ⟨p, gravPrev p count, sl, sr⟩ count = ⟨p, p, sl, sr⟩ := by
  have h : integrate ⟨p, gravPrev p count⟩ count = ⟨p, p⟩ := by
    rw [show (⟨p, gravPrev p count⟩ : PState) =
      ⟨p, fun n => if n % 3 = 1 ∧ n / 3 < count then p n + GRAVITY / 0.99 else p n⟩ from rfl]
    exact integrate_gravity_cancel p count
  rw [integrateS]
  dsimp only
  rw [h]

/-- Iterating from a fixed point of the relaxation iteration stays
there. -/
theorem iterLoop_of_fixed (cfg : Config) (cols count : ℕ)
    (structural bending reinforcement : List Constraint) (drag : Drag)
    (lh rh : Option (ℝ × ℝ × ℝ)) (y : SimState)
    (hfix : relaxIteration cfg cols count structural bending reinforcement drag lh rh y = y)
    (n : ℕ) : iterLoop cfg cols count structural bending reinforcement drag lh rh n y = y := by
  induction n with
  | zero => rfl
  | succ m ih => rw [iterLoop_succ, ih, hfix]

/-- A state that reaches a fixed point after one relaxation iteration
lands on it for every positive iteration count. -/
theorem iterLoop_into_fixed (cfg : Config) (cols count : ℕ)
    (structural bending reinforcement : List Constraint) (drag : Drag)
    (lh rh : Option (ℝ × ℝ × ℝ)) (x y : SimState)
    (hstep : relaxIteration cfg cols count structural bending reinforcement drag lh rh x = y)
    (hfix : relaxIteration cfg cols count structural bending reinforcement drag lh rh y = y)
    (n : ℕ) (hn : 1 ≤ n) :
    iterLoop cfg cols count structural bending reinforcement drag lh rh n x = y := by
  induction n with
  | zero => omega
  | succ m ih =>
    rw [iterLoop_succ]
    by_cases hm : m = 0
    · subst hm
      rw [show iterLoop cfg cols count structural bending reinforcement drag lh rh 0 x = x
        from rfl, hstep]
    · rw [ih (by omega), hfix]

/-- Inactive pointer interaction. -/
noncomputable def dragOff : Drag := ⟨false, 0, 0, 0, 0⟩

/-- A 3 by 3 grid (resolution 2) of an 8 by 8 cloth lying flat on the
floor plane y = -2.5: the center particle 4 sits at (0, -2.5, 0),
directly below the hardcoded sphere center at the origin, and every
other particle is at least 4 away horizontally. -/
noncomputable def flat4 : ℕ → ℝ := flatPos 3 2 8 8 0 (-2.5) 0

theorem flat4_x (i : ℕ) : flat4 (i * 3) = ((i % 3 : ℕ) : ℝ) / 2 * 8 - 4 := by
  rw [flat4, flatPos_x]
  norm_num

theorem flat4_y (i : ℕ) : flat4 (i * 3 + 1) = -2.5 := by
  rw [flat4, flatPos_y]

theorem flat4_z (i : ℕ) : flat4 (i * 3 + 2) = ((i / 3 : ℕ) : ℝ) / 2 * 8 - 4 := by
  rw [flat4, flatPos_z]
  norm_num

/-- With the sphere at the origin and radius at most the slider maximum
3, every particle of the flat grid other than the center one is clear of
the padded sphere and of the floor clamp. -/
theorem flat4_clear (cfg : Config) (hx : cfg.sphereX = 0) (hy : cfg.sphereY = 0)
    (hz : cfg.sphereZ = 0) (hr0 : 0 ≤ cfg.sphereRadius) (hr : cfg.sphereRadius ≤ 3)
    (j : ℕ) (hj : j < 9) (hj4 : j ≠ 4) (s : PState)
    (h0 : s.pos (j * 3) = flat4 (j * 3)) (h1 : s.pos (j * 3 + 1) = flat4 (j * 3 + 1))
    (h2 : s.pos (j * 3 + 2) = flat4 (j * 3 + 2)) :
    collideStep cfg dragOff s j = s := by
  have hcol : (cfg.sphereRadius + 0.08) * (cfg.sphereRadius + 0.08) ≤ 9.4864 := by nlinarith
  apply collideStep_id
  · push_neg
    simp only [sphereDistSq, h0, h1, h2, hx, hy, hz, flat4_y]
    rw [flat4_x, flat4_z]
    interval_cases j
    · norm_num
      nlinarith
    · norm_num
      nlinarith
    · norm_num
      nlinarith
    · norm_num
      nlinarith
    · exact absurd rfl hj4
    · norm_num
      nlinarith
    · norm_num
      nlinarith
    · norm_num
      nlinarith
    · norm_num
      nlinarith
  · rw [h1, flat4_y]
    norm_num

/-- When the padded sphere misses even the center particle, it too is
clear. -/
theorem flat4_clear4 (cfg : Config) (hx : cfg.sphereX = 0) (hy : cfg.sphereY = 0)
    (hz : cfg.sphereZ = 0)
    (hr : (cfg.sphereRadius + 0.08) * (cfg.sphereRadius + 0.08) ≤ 6.25) (s : PState)
    (h0 : s.pos (4 * 3) = flat4 (4 * 3)) (h1 : s.pos (4 * 3 + 1) = flat4 (4 * 3 + 1))
    (h2 : s.pos (4 * 3 + 2) = flat4 (4 * 3 + 2)) :
    collideStep cfg dragOff s 4 = s := by
  apply collideStep_id
  · push_neg
    simp only [sphereDistSq, h0, h1, h2, hx, hy, hz, flat4_y]
    rw [flat4_x, flat4_z]
    norm_num
    nlinarith
  · rw [h1, flat4_y]
    norm_num

theorem flat4_12 : flat4 12 = 0 := by
  have h := flat4_x 4
  norm_num at h
  exact h

theorem flat4_13 : flat4 13 = -2.5 := by
  have h := flat4_y 4
  norm_num at h ⊢
  exact h

theorem flat4_14 : flat4 14 = 0 := by
  have h := flat4_z 4
  norm_num at h
  exact h

/-- The app configuration with the sphere radius slider at its maximum
3: hardcoded sphere center [0, 0, 0], hardcoded frictions 1, default
stiffness 0.5. The padded collision surface then reaches y = -3.08,
below the floor plane y = -2.5. -/
noncomputable def cfgC4 : Config := ⟨0.5, 1, 1, 3, 0, 0, 0⟩

/-- The flat grid with the previous y entry of the center particle left
at the bottom of the padded sphere by the floor clamp. -/
noncomputable def prevStar : ℕ → ℝ := upd flat4 13 (-3.08)

theorem prevStar_13 : prevStar 13 = -3.08 := by
  rw [prevStar, upd_eq]

theorem prevStar_ne (n : ℕ) (h : n ≠ 13) : prevStar n = flat4 n := by
  rw [prevStar, upd_ne _ _ _ h]

theorem flat4_distSq : sphereDistSq cfgC4 flat4 4 = 6.25 := by
  simp only [sphereDistSq, cfgC4]
  norm_num [flat4_12, flat4_13, flat4_14]

/-- The collision body of the center particle under cfgC4: the sticky
snap writes it to (0, -3.08, 0) with previous = current, then the floor
clamp lifts the current y back to -2.5, leaving the previous y at -3.08
and the horizontal previous entries at 0. -/
theorem collideStepC4_center (q : ℕ → ℝ) :
    collideStep cfgC4 dragOff ⟨flat4, q⟩ 4 =
      ⟨flat4, upd (upd (upd q 12 0) 14 0) 13 (-3.08)⟩ := by
  have hin : sphereDistSq cfgC4 flat4 4 <
      (cfgC4.sphereRadius + 0.08) * (cfgC4.sphereRadius + 0.08) := by
    rw [flat4_distSq]
    simp only [cfgC4]
    norm_num
  have hfr : 0.60 ≤ (cfgC4.clothFriction + cfgC4.sphereFriction) * 0.5 := by
    simp only [cfgC4]
    norm_num
  have hsq : Real.sqrt (sphereDistSq cfgC4 flat4 4) = 2.5 := by
    rw [flat4_distSq]
    exact sqrt_of_sq (by norm_num) (by norm_num)
  have hc0 : center cfgC4 0 = 0 := by simp [center, cfgC4]
  have hc1 : center cfgC4 1 = 0 := by simp [center, cfgC4]
  have hc2 : center cfgC4 2 = 0 := by simp [center, cfgC4]
  have hn0 : normalComp cfgC4 flat4 4 0 = 0 := by
    rw [normalComp, hsq, hc0]
    norm_num [flat4_12]
  have hn1 : normalComp cfgC4 flat4 4 1 = -1 := by
    rw [normalComp, hsq, hc1]
    norm_num [flat4_13]
  have hn2 : normalComp cfgC4 flat4 4 2 = 0 := by
    rw [normalComp, hsq, hc2]
    norm_num [flat4_14]
  have snap := sphereResolve_snap cfgC4 ⟨flat4, q⟩ 4 hin hfr
  have h0 := snap 0 (by norm_num)
  have h1 := snap 1 (by norm_num)
  have h2 := snap 2 (by norm_num)
  rw [show (4 * 3 + 0 : ℕ) = 12 by norm_num, hc0, hn0] at h0
  rw [show (4 * 3 + 1 : ℕ) = 13 by norm_num, hc1, hn1] at h1
  rw [show (4 * 3 + 2 : ℕ) = 14 by norm_num, hc2, hn2] at h2
  rw [collideStep, if_neg (by simp [dragOff])]
  set S1 := sphereResolve cfgC4 ⟨flat4, q⟩ 4 with hS1def
  have hp12 : S1.pos 12 = 0 := by
    rw [h0.1]
    norm_num
  have hp13 : S1.pos 13 = -3.08 := by
    rw [h1.1]
    simp only [cfgC4]
    norm_num
  have hp14 : S1.pos 14 = 0 := by
    rw [h2.1]
    norm_num
  have hq12 : S1.prev 12 = 0 := by rw [h0.2, hp12]
  have hq13 : S1.prev 13 = -3.08 := by rw [h1.2, hp13]
  have hq14 : S1.prev 14 = 0 := by rw [h2.2, hp14]
  have hfrm : ∀ n, n ≠ 12 → n ≠ 13 → n ≠ 14 → S1.pos n = flat4 n ∧ S1.prev n = q n := by
    intro n a b c
    exact sphereResolve_frame cfgC4 ⟨flat4, q⟩ 4 n (by omega) (by omega) (by omega)
  have hy : S1.pos (4 * 3 + 1) < -2.5 := by
    rw [show (4 * 3 + 1 : ℕ) = 13 by norm_num, hp13]
    norm_num
  simp only [floorResolve]
  rw [if_pos hy]
  rw [show (4 * 3 + 2 : ℕ) = 14 by norm_num, show (4 * 3 + 1 : ℕ) = 13 by norm_num,
    show (4 * 3 : ℕ) = 12 by norm_num]
  congr 1
  · funext n
    by_cases h13 : n = 13
    · subst h13
      rw [upd_eq, flat4_13]
    · rw [upd_ne _ _ _ h13]
      by_cases h12 : n = 12
      · subst h12
        rw [hp12, flat4_12]
      · by_cases h14 : n = 14
        · subst h14
          rw [hp14, flat4_14]
        · exact (hfrm n h12 h13 h14).1
  · rw [hp12, hq12, hp14, hq14]
    funext n
    by_cases h13 : n = 13
    · subst h13
      rw [upd_ne _ _ _ (show (13 : ℕ) ≠ 14 by norm_num),
        upd_ne _ _ _ (show (13 : ℕ) ≠ 12 by norm_num), hq13, upd_eq]
    · rw [upd_ne _ _ _ h13]
      by_cases h14 : n = 14
      · subst h14
        rw [upd_eq, upd_eq]
        norm_num
      · rw [upd_ne _ _ _ h14, upd_ne _ _ _ h14]
        by_cases h12 : n = 12
        · subst h12
          rw [upd_eq, upd_eq]
          norm_num
        · rw [upd_ne _ _ _ h12, upd_ne _ _ _ h12]
          exact (hfrm n h12 h13 h14).2

theorem collideStepC4_P0 :
    collideStep cfgC4 dragOff ⟨flat4, flat4⟩ 4 = ⟨flat4, prevStar⟩ := by
  rw [collideStepC4_center flat4]
  congr 1
  funext n
  by_cases h13 : n = 13
  · subst h13
    rw [upd_eq, prevStar, upd_eq]
  · rw [upd_ne _ _ _ h13, prevStar, upd_ne _ _ _ h13]
    by_cases h14 : n = 14
    · subst h14
      rw [upd_eq, flat4_14]
    · rw [upd_ne _ _ _ h14]
      by_cases h12 : n = 12
      · subst h12
        rw [upd_eq, flat4_12]
      · rw [upd_ne _ _ _ h12]

theorem collideStepC4_PStar :
    collideStep cfgC4 dragOff ⟨flat4, prevStar⟩ 4 = ⟨flat4, prevStar⟩ := by
  rw [collideStepC4_center prevStar]
  congr 1
  funext n
  by_cases h13 : n = 13
  · subst h13
    rw [upd_eq, prevStar_13]
  · rw [upd_ne _ _ _ h13]
    by_cases h14 : n = 14
    · subst h14
      rw [upd_eq, prevStar_ne 14 (by norm_num), flat4_14]
    · rw [upd_ne _ _ _ h14]
      by_cases h12 : n = 12
      · subst h12
        rw [upd_eq, prevStar_ne 12 (by norm_num), flat4_12]
      · rw [upd_ne _ _ _ h12]

theorem collidePassC4 (q : ℕ → ℝ)
    (hq : collideStep cfgC4 dragOff ⟨flat4, q⟩ 4 = ⟨flat4, prevStar⟩) :
    collidePass cfgC4 dragOff 9 ⟨flat4, q⟩ = ⟨flat4, prevStar⟩ := by
  have nc : ∀ j : ℕ, j < 9 → j ≠ 4 → ∀ w : ℕ → ℝ,
      collideStep cfgC4 dragOff ⟨flat4, w⟩ j = ⟨flat4, w⟩ := by
    intro j hj hj4 w
    exact flat4_clear cfgC4 rfl rfl rfl (by norm_num [cfgC4]) (by norm_num [cfgC4]) j hj hj4
      ⟨flat4, w⟩ rfl rfl rfl
  have e0 : collidePass cfgC4 dragOff 0 ⟨flat4, q⟩ = ⟨flat4, q⟩ := rfl
  have e1 : collidePass cfgC4 dragOff 1 ⟨flat4, q⟩ = ⟨flat4, q⟩ := by
    rw [show (1 : ℕ) = 0 + 1 from rfl, collidePass_succ, e0, nc 0 (by norm_num) (by norm_num) q]
  have e2 : collidePass cfgC4 dragOff 2 ⟨flat4, q⟩ = ⟨flat4, q⟩ := by
    rw [show (2 : ℕ) = 1 + 1 from rfl, collidePass_succ, e1, nc 1 (by norm_num) (by norm_num) q]
  have e3 : collidePass cfgC4 dragOff 3 ⟨flat4, q⟩ = ⟨flat4, q⟩ := by
    rw [show (3 : ℕ) = 2 + 1 from rfl, collidePass_succ, e2, nc 2 (by norm_num) (by norm_num) q]
  have e4 : collidePass cfgC4 dragOff 4 ⟨flat4, q⟩ = ⟨flat4, q⟩ := by
    rw [show (4 : ℕ) = 3 + 1 from rfl, collidePass_succ, e3, nc 3 (by norm_num) (by norm_num) q]
  have e5 : collidePass cfgC4 dragOff 5 ⟨flat4, q⟩ = ⟨flat4, prevStar⟩ := by
    rw [show (5 : ℕ) = 4 + 1 from rfl, collidePass_succ, e4, hq]
  have e6 : collidePass cfgC4 dragOff 6 ⟨flat4, q⟩ = ⟨flat4, prevStar⟩ := by
    rw [show (6 : ℕ) = 5 + 1 from rfl, collidePass_succ, e5,
      nc 5 (by norm_num) (by norm_num) prevStar]
  have e7 : collidePass cfgC4 dragOff 7 ⟨flat4, q⟩ = ⟨flat4, prevStar⟩ := by
    rw [show (7 : ℕ) = 6 + 1 from rfl, collidePass_succ, e6,
      nc 6 (by norm_num) (by norm_num) prevStar]
  have e8 : collidePass cfgC4 dragOff 8 ⟨flat4, q⟩ = ⟨flat4, prevStar⟩ := by
    rw [show (8 : ℕ) = 7 + 1 from rfl, collidePass_succ, e7,
      nc 7 (by norm_num) (by norm_num) prevStar]
  rw [show (9 : ℕ) = 8 + 1 from rfl, collidePass_succ, e8,
    nc 8 (by norm_num) (by norm_num) prevStar]

/-- The constraint lists the builder produces for the 3 by 3 scenario
grid. -/
noncomputable def structC4 : List Constraint := structuralList 3 3 2 8 8

noncomputable def bendC4 : List Constraint := bendingList 3 3 2 8 8

noncomputable def reinC4 : List Constraint := reinforcementList 3 3 2 8 8

theorem relaxPassC4_flat (s : ℝ) : relaxPass structC4 bendC4 reinC4 s flat4 = flat4 := by
  rw [structC4, bendC4, reinC4, flat4]
  exact relaxPass_flat 3 3 2 8 8 0 (-2.5) 0 s

theorem relaxIterationC4_P0 :
    relaxIteration cfgC4 3 9 structC4 bendC4 reinC4 dragOff none none
      ⟨flat4, flat4, none, none⟩ = ⟨flat4, prevStar, none, none⟩ := by
  rw [relaxIteration_eval cfgC4 3 9 structC4 bendC4 reinC4 dragOff rfl flat4 flat4
    (relaxPassC4_flat cfgC4.stiffness), collidePassC4 flat4 collideStepC4_P0]

theorem relaxIterationC4_PStar :
    relaxIteration cfgC4 3 9 structC4 bendC4 reinC4 dragOff none none
      ⟨flat4, prevStar, none, none⟩ = ⟨flat4, prevStar, none, none⟩ := by
  rw [relaxIteration_eval cfgC4 3 9 structC4 bendC4 reinC4 dragOff rfl flat4 prevStar
    (relaxPassC4_flat cfgC4.stiffness), collidePassC4 prevStar collideStepC4_PStar]

/-- Start state of the counterexample tick: the flat grid resting on the
floor with the exact gravity-cancelling implied velocity. -/
noncomputable def startC4 : SimState := ⟨flat4, gravPrev flat4 9, none, none⟩

theorem tickC4_eval :
    tick cfgC4 2 3 9 structC4 bendC4 reinC4 dragOff none none startC4 =
      ⟨flat4, prevStar, none, none⟩ := by
  rw [tick_eq_iterLoop,
    show iterationsCount 2 cfgC4.stiffness = 8 from by norm_num [iterationsCount, cfgC4],
    startC4, integrateS_gravPrev]
  exact iterLoop_into_fixed cfgC4 3 9 structC4 bendC4 reinC4 dragOff none none
    ⟨flat4, flat4, none, none⟩ ⟨flat4, prevStar, none, none⟩ relaxIterationC4_P0
    relaxIterationC4_PStar 8 (by norm_num)

/-- Counterexample to C4 as stated: with the sphere radius at its slider
maximum 3 the padded collision surface reaches y = -3.08, below the
floor plane y = -2.5. The center particle of a flat cloth resting on the
floor directly below the sphere is snapped to the bottom of the padded
sphere and then lifted back to the floor by the floor clamp, ending the
complete tick at distance 2.5 from the sphere center, half a unit inside
the sphere, while no pin is active. -/
theorem tick_sphere_penetration_fails :
    Real.sqrt (sphereDistSq cfgC4
      (tick cfgC4 2 3 9 structC4 bendC4 reinC4 dragOff none none startC4).pos 4) =
      cfgC4.sphereRadius - 0.5 ∧
    cfgC4.sphereRadius = 3 ∧ dragOff.active = false := by
  refine ⟨?_, rfl, rfl⟩
  rw [tickC4_eval]
  have h : Real.sqrt (sphereDistSq cfgC4 flat4 4) = 2.5 := by
    rw [flat4_distSq]
    exact sqrt_of_sq (by norm_num) (by norm_num)
  calc Real.sqrt (sphereDistSq cfgC4 (SimState.pos ⟨flat4, prevStar, none, none⟩) 4)
      = 2.5 := h
    _ = cfgC4.sphereRadius - 0.5 := by
        simp only [cfgC4]
        norm_num

/-- A nominal configuration whose padded sphere stays above the floor:
unit sphere radius, hardcoded center and frictions, default stiffness. -/
noncomputable def cfgW : Config := ⟨0.5, 1, 1, 1, 0, 0, 0⟩

theorem flat4_distSqW : sphereDistSq cfgW flat4 4 = 6.25 := by
  simp only [sphereDistSq, cfgW]
  norm_num [flat4_12, flat4_13, flat4_14]

theorem collidePassW (w : ℕ → ℝ) : collidePass cfgW dragOff 9 ⟨flat4, w⟩ = ⟨flat4, w⟩ := by
  apply collidePass_id
  intro j hj
  by_cases hj4 : j = 4
  · subst hj4
    exact flat4_clear4 cfgW rfl rfl rfl (by norm_num [cfgW]) ⟨flat4, w⟩ rfl rfl rfl
  · exact flat4_clear cfgW rfl rfl rfl (by norm_num [cfgW]) (by norm_num [cfgW]) j hj hj4
      ⟨flat4, w⟩ rfl rfl rfl

theorem relaxIterationW_fix :
    relaxIteration cfgW 3 9 structC4 bendC4 reinC4 dragOff none none
      ⟨flat4, flat4, none, none⟩ = ⟨flat4, flat4, none, none⟩ := by
  rw [relaxIteration_eval cfgW 3 9 structC4 bendC4 reinC4 dragOff rfl flat4 flat4
    (relaxPassC4_flat cfgW.stiffness), collidePassW flat4]

theorem preCollideStateW :
    preCollideState cfgW 2 3 9 structC4 bendC4 reinC4 dragOff none none startC4 =
      ⟨flat4, flat4, none, none⟩ := by
  rw [preCollideState]
  rw [show iterationsCount 2 cfgW.stiffness - 1 = 7 from by norm_num [iterationsCount, cfgW],
    startC4, integrateS_gravPrev,
    iterLoop_of_fixed cfgW 3 9 structC4 bendC4 reinC4 dragOff none none
      ⟨flat4, flat4, none, none⟩ relaxIterationW_fix 7]
  rw [show SimState.pos ⟨flat4, flat4, none, none⟩ = flat4 from rfl,
    relaxPassC4_flat cfgW.stiffness]
  exact pinPhase_inactive 3 dragOff rfl flat4 flat4

/-- Witness for C4 (amended): at the unit-radius configuration, whose
padded sphere stays above the floor, the center particle of the resting
grid ends the complete tick at distance at least sphereRadius from the
sphere center. -/
theorem tick_sphere_nonpenetration_witness :
    cfgW.sphereRadius ≤ Real.sqrt (sphereDistSq cfgW
      (tick cfgW 2 3 9 structC4 bendC4 reinC4 dragOff none none startC4).pos 4) :=
  tick_sphere_nonpenetration cfgW 2 3 9 structC4 bendC4 reinC4 dragOff none none startC4 4
    (by norm_num [cfgW]) (by norm_num [cfgW]) (by norm_num) (by simp [dragOff])
    (by
      rw [preCollideStateW]
      show sphereDistSq cfgW flat4 4 ≠ 0
      rw [flat4_distSqW]
      norm_num)

/-- Configuration with the sphere radius slider at its minimum 0.5,
hardcoded center and frictions, default stiffness. -/
noncomputable def cfgC8 : Config := ⟨0.5, 1, 1, 0.5, 0, 0, 0⟩

/-- The sphere push of the collision loop divides the overlap and the
normal components by the center distance with no guard: this predicate
records that the contact branch is entered while that divisor is exactly
zero. -/
noncomputable def sphereDivisorZero (cfg : Config) (pos : ℕ → ℝ) (i : ℕ) : Prop :=
  sphereDistSq cfg pos i < (cfg.sphereRadius + 0.08) * (cfg.sphereRadius + 0.08) ∧
    Real.sqrt (sphereDistSq cfg pos i) = 0

/-- The flat grid with the left pinch corner (particle 2 of the 3 by 3
grid) pinned to the sphere center. -/
noncomputable def pinnedC8 : ℕ → ℝ := upd (upd (upd flat4 6 0) 7 0) 8 0

theorem pinnedC8_low (n : ℕ) (h : n < 6) : pinnedC8 n = flat4 n := by
  rw [pinnedC8, upd_ne _ _ _ (by omega), upd_ne _ _ _ (by omega), upd_ne _ _ _ (by omega)]

theorem pinnedC8_6 : pinnedC8 6 = 0 := by
  rw [pinnedC8, upd_ne _ _ _ (by norm_num), upd_ne _ _ _ (by norm_num), upd_eq]

theorem pinnedC8_7 : pinnedC8 7 = 0 := by
  rw [pinnedC8, upd_ne _ _ _ (by norm_num), upd_eq]

theorem pinnedC8_8 : pinnedC8 8 = 0 := by
  rw [pinnedC8, upd_eq]

theorem pinPhaseC8 :
    pinPhase 3 dragOff (some ((0 : ℝ), (0 : ℝ), (0 : ℝ))) none ⟨flat4, flat4, none, none⟩ =
      ⟨pinnedC8, pinnedC8, some (0, 0, 0), none⟩ := by
  rw [pinPhase, applyDragPin, if_neg (by simp [dragOff])]
  simp only [applyLeftPinch, applyRightPinch, smoothedOf, getIdx]
  norm_num [pinnedC8]

theorem collidePassC8 :
    collidePass cfgC8 dragOff 2 ⟨pinnedC8, pinnedC8⟩ = ⟨pinnedC8, pinnedC8⟩ := by
  apply collidePass_id
  intro j hj
  exact flat4_clear cfgC8 rfl rfl rfl (by norm_num [cfgC8]) (by norm_num [cfgC8]) j
    (by omega) (by omega) ⟨pinnedC8, pinnedC8⟩ (pinnedC8_low _ (by omega))
    (pinnedC8_low _ (by omega)) (pinnedC8_low _ (by omega))

theorem distSqC8_zero : sphereDistSq cfgC8 pinnedC8 2 = 0 := by
  simp only [sphereDistSq, cfgC8]
  norm_num [pinnedC8_6, pinnedC8_7, pinnedC8_8]

theorem divisorZeroC8 : sphereDivisorZero cfgC8 pinnedC8 2 := by
  constructor
  · rw [distSqC8_zero]
    simp only [cfgC8]
    norm_num
  · rw [distSqC8_zero]
    exact Real.sqrt_zero

/-- C8: the divide-by-zero guard of the constraint solver has no
counterpart in the sphere collision. A pinch pin at the hardcoded sphere
center [0, 0, 0] places the mapped grid corner exactly at the center
inside a relaxation iteration, and the collision body of that corner
then enters the contact branch and divides by a center distance of
exactly zero. The conjuncts trace the phases of the tick up to that
division: integration leaves the resting grid, the constraint phase
leaves it, the pin phase writes the corner to the center, the collision
steps before the corner leave the state, and the corner then satisfies
the divisor-zero predicate. -/
theorem sphere_division_guard_violated :
    integrateS startC4 9 = ⟨flat4, flat4, none, none⟩ ∧
    relaxPass structC4 bendC4 reinC4 cfgC8.stiffness flat4 = flat4 ∧
    pinPhase 3 dragOff (some ((0 : ℝ), (0 : ℝ), (0 : ℝ))) none ⟨flat4, flat4, none, none⟩ =
      ⟨pinnedC8, pinnedC8, some (0, 0, 0), none⟩ ∧
    collidePass cfgC8 dragOff 2 ⟨pinnedC8, pinnedC8⟩ = ⟨pinnedC8, pinnedC8⟩ ∧
    sphereDivisorZero cfgC8 pinnedC8 2 :=
  ⟨by rw [startC4]; exact integrateS_gravPrev flat4 9 none none,
   relaxPassC4_flat cfgC8.stiffness, pinPhaseC8, collidePassC8, divisorZeroC8⟩

/-- Coordinate k of a target triple. -/
noncomputable def comp3 (v : ℝ × ℝ × ℝ) : ℕ → ℝ :=
  fun k => if k = 0 then v.1 else if k = 1 then v.2.1 else v.2.2

theorem comp3_0 (v : ℝ × ℝ × ℝ) : comp3 v 0 = v.1 := rfl

theorem comp3_1 (v : ℝ × ℝ × ℝ) : comp3 v 1 = v.2.1 := rfl

theorem comp3_2 (v : ℝ × ℝ × ℝ) : comp3 v 2 = v.2.2 := rfl

theorem smR_through (cols : ℕ) (drag : Drag) (tl : ℝ × ℝ × ℝ) (b : SimState) :
    (applyLeftPinch cols (some tl) (applyDragPin drag b)).smR = b.smR := by
  simp only [applyLeftPinch]
  rw [applyDragPin]
  split_ifs <;> rfl

theorem smL_through (drag : Drag) (b : SimState) : (applyDragPin drag b).smL = b.smL := by
  rw [applyDragPin]
  split_ifs <;> rfl

/-- After the pin phase the right pinch corner holds the smoothed right
target in both buffers. -/
theorem pinPhase_right (cols : ℕ) (drag : Drag) (tl tr : ℝ × ℝ × ℝ) (b : SimState)
    (k : ℕ) (hk : k < 3) :
    (pinPhase cols drag (some tl) (some tr) b).pos k = comp3 (smoothedOf b.smR tr) k ∧
      (pinPhase cols drag (some tl) (some tr) b).prev k = comp3 (smoothedOf b.smR tr) k := by
  rw [pinPhase]
  simp only [applyRightPinch]
  rw [smR_through]
  rw [show getIdx 0 0 cols * 3 = 0 from by simp [getIdx]]
  interval_cases k
  · constructor <;>
      rw [upd_ne _ _ _ (show (0 : ℕ) ≠ 0 + 2 by norm_num),
        upd_ne _ _ _ (show (0 : ℕ) ≠ 0 + 1 by norm_num), upd_eq, comp3_0]
  · constructor <;>
      rw [upd_ne _ _ _ (show (1 : ℕ) ≠ 0 + 2 by norm_num),
        show (0 + 1 : ℕ) = 1 from by norm_num, upd_eq, comp3_1]
  · constructor <;>
      rw [show (0 + 2 : ℕ) = 2 from by norm_num, upd_eq, comp3_2]

/-- After the pin phase the left pinch corner holds the smoothed left
target in both buffers. -/
theorem pinPhase_left (cols : ℕ) (drag : Drag) (tl tr : ℝ × ℝ × ℝ) (b : SimState)
    (hcols : 2 ≤ cols) (k : ℕ) (hk : k < 3) :
    (pinPhase cols drag (some tl) (some tr) b).pos ((cols - 1) * 3 + k) =
      comp3 (smoothedOf b.smL tl) k ∧
      (pinPhase cols drag (some tl) (some tr) b).prev ((cols - 1) * 3 + k) =
      comp3 (smoothedOf b.smL tl) k := by
  rw [pinPhase]
  simp only [applyRightPinch, applyLeftPinch]
  rw [smL_through]
  rw [show getIdx 0 0 cols * 3 = 0 from by simp [getIdx],
    show getIdx (cols - 1) 0 cols * 3 = (cols - 1) * 3 from by simp [getIdx]]
  interval_cases k
  · constructor <;>
      rw [upd_ne _ _ _ (show (cols - 1) * 3 + 0 ≠ 0 + 2 by omega),
        upd_ne _ _ _ (show (cols - 1) * 3 + 0 ≠ 0 + 1 by omega),
        upd_ne _ _ _ (show (cols - 1) * 3 + 0 ≠ 0 by omega),
        upd_ne _ _ _ (show (cols - 1) * 3 + 0 ≠ (cols - 1) * 3 + 2 by omega),
        upd_ne _ _ _ (show (cols - 1) * 3 + 0 ≠ (cols - 1) * 3 + 1 by omega),
        show (cols - 1) * 3 + 0 = (cols - 1) * 3 from by omega, upd_eq, comp3_0]
  · constructor <;>
      rw [upd_ne _ _ _ (show (cols - 1) * 3 + 1 ≠ 0 + 2 by omega),
        upd_ne _ _ _ (show (cols - 1) * 3 + 1 ≠ 0 + 1 by omega),
        upd_ne _ _ _ (show (cols - 1) * 3 + 1 ≠ 0 by omega),
        upd_ne _ _ _ (show (cols - 1) * 3 + 1 ≠ (cols - 1) * 3 + 2 by omega),
        upd_eq, comp3_1]
  · constructor <;>
      rw [upd_ne _ _ _ (show (cols - 1) * 3 + 2 ≠ 0 + 2 by omega),
        upd_ne _ _ _ (show (cols - 1) * 3 + 2 ≠ 0 + 1 by omega),
        upd_ne _ _ _ (show (cols - 1) * 3 + 2 ≠ 0 by omega),
        upd_eq, comp3_2]

/-- After the pin phase the dragged vertex holds the drag target in both
buffers, provided it is not one of the pinch corners. -/
theorem pinPhase_drag (cols : ℕ) (drag : Drag) (tl tr : ℝ × ℝ × ℝ) (b : SimState)
    (hact : drag.active = true) (hd0 : drag.vertexIndex ≠ 0)
    (hdc : drag.vertexIndex ≠ cols - 1) (k : ℕ) (hk : k < 3) :
    (pinPhase cols drag (some tl) (some tr) b).pos (drag.vertexIndex * 3 + k) =
      comp3 (drag.tx, drag.ty, drag.tz) k ∧
      (pinPhase cols drag (some tl) (some tr) b).prev (drag.vertexIndex * 3 + k) =
      comp3 (drag.tx, drag.ty, drag.tz) k := by
  rw [pinPhase, applyDragPin, if_pos hact]
  simp only [applyRightPinch, applyLeftPinch]
  rw [show getIdx 0 0 cols * 3 = 0 from by simp [getIdx],
    show getIdx (cols - 1) 0 cols * 3 = (cols - 1) * 3 from by simp [getIdx]]
  interval_cases k
  · constructor <;>
      rw [upd_ne _ _ _ (show drag.vertexIndex * 3 + 0 ≠ 0 + 2 by omega),
        upd_ne _ _ _ (show drag.vertexIndex * 3 + 0 ≠ 0 + 1 by omega),
        upd_ne _ _ _ (show drag.vertexIndex * 3 + 0 ≠ 0 by omega),
        upd_ne _ _ _ (show drag.vertexIndex * 3 + 0 ≠ (cols - 1) * 3 + 2 by omega),
        upd_ne _ _ _ (show drag.vertexIndex * 3 + 0 ≠ (cols - 1) * 3 + 1 by omega),
        upd_ne _ _ _ (show drag.vertexIndex * 3 + 0 ≠ (cols - 1) * 3 by omega),
        upd_ne _ _ _ (show drag.vertexIndex * 3 + 0 ≠ drag.vertexIndex * 3 + 2 by omega),
        upd_ne _ _ _ (show drag.vertexIndex * 3 + 0 ≠ drag.vertexIndex * 3 + 1 by omega),
        show drag.vertexIndex * 3 + 0 = drag.vertexIndex * 3 from by omega, upd_eq, comp3_0]
  · constructor <;>
      rw [upd_ne _ _ _ (show drag.vertexIndex * 3 + 1 ≠ 0 + 2 by omega),
        upd_ne _ _ _ (show drag.vertexIndex * 3 + 1 ≠ 0 + 1 by omega),
        upd_ne _ _ _ (show drag.vertexIndex * 3 + 1 ≠ 0 by omega),
        upd_ne _ _ _ (show drag.vertexIndex * 3 + 1 ≠ (cols - 1) * 3 + 2 by omega),
        upd_ne _ _ _ (show drag.vertexIndex * 3 + 1 ≠ (cols - 1) * 3 + 1 by omega),
        upd_ne _ _ _ (show drag.vertexIndex * 3 + 1 ≠ (cols - 1) * 3 by omega),
        upd_ne _ _ _ (show drag.vertexIndex * 3 + 1 ≠ drag.vertexIndex * 3 + 2 by omega),
        upd_eq, comp3_1]
  · constructor <;>
      rw [upd_ne _ _ _ (show drag.vertexIndex * 3 + 2 ≠ 0 + 2 by omega),
        upd_ne _ _ _ (show drag.vertexIndex * 3 + 2 ≠ 0 + 1 by omega),
        upd_ne _ _ _ (show drag.vertexIndex * 3 + 2 ≠ 0 by omega),
        upd_ne _ _ _ (show drag.vertexIndex * 3 + 2 ≠ (cols - 1) * 3 + 2 by omega),
        upd_ne _ _ _ (show drag.vertexIndex * 3 + 2 ≠ (cols - 1) * 3 + 1 by omega),
        upd_ne _ _ _ (show drag.vertexIndex * 3 + 2 ≠ (cols - 1) * 3 by omega),
        upd_eq, comp3_2]

/-- A target triple outside the padded collision sphere. -/
noncomputable def clearOfSphere (cfg : Config) (v : ℝ × ℝ × ℝ) : Prop :=
  ¬ ((v.1 - cfg.sphereX) * (v.1 - cfg.sphereX) +
      (v.2.1 - cfg.sphereY) * (v.2.1 - cfg.sphereY) +
      (v.2.2 - cfg.sphereZ) * (v.2.2 - cfg.sphereZ) <
      (cfg.sphereRadius + 0.08) * (cfg.sphereRadius + 0.08))

/-- C9 (amended): at the end of a relaxation iteration the drag-pinned
vertex sits exactly at the drag target with previous = current, because
the collision loop skips it; each pinch-pinned corner sits exactly at
its smoothed pinch target with previous = current provided that target
lies outside the padded collision sphere and at or above the floor
plane; a pinch target violating that proviso is displaced by the
collision pass, which does not skip pinch-pinned corners. -/
theorem pin_override_spec (cfg : Config) (cols count : ℕ)
    (structural bending reinforcement : List Constraint) (drag : Drag)
    (tl tr : ℝ × ℝ × ℝ) (s : SimState)
    (hcols : 2 ≤ cols) (hact : drag.active = true)
    (hd0 : drag.vertexIndex ≠ 0) (hdc : drag.vertexIndex ≠ cols - 1)
    (hcount0 : 0 < count) (hcountc : cols - 1 < count)
    (hLs : clearOfSphere cfg (smoothedOf s.smL tl))
    (hLf : ¬ (smoothedOf s.smL tl).2.1 < -2.5)
    (hRs : clearOfSphere cfg (smoothedOf s.smR tr))
    (hRf : ¬ (smoothedOf s.smR tr).2.1 < -2.5)
    (k : ℕ) (hk : k < 3) :
    ((relaxIteration cfg cols count structural bending reinforcement drag (some tl) (some tr)
        s).pos (drag.vertexIndex * 3 + k) = comp3 (drag.tx, drag.ty, drag.tz) k ∧
      (relaxIteration cfg cols count structural bending reinforcement drag (some tl) (some tr)
        s).prev (drag.vertexIndex * 3 + k) = comp3 (drag.tx, drag.ty, drag.tz) k) ∧
    ((relaxIteration cfg cols count structural bending reinforcement drag (some tl) (some tr)
        s).pos ((cols - 1) * 3 + k) = comp3 (smoothedOf s.smL tl) k ∧
      (relaxIteration cfg cols count structural bending reinforcement drag (some tl) (some tr)
        s).prev ((cols - 1) * 3 + k) = comp3 (smoothedOf s.smL tl) k) ∧
    ((relaxIteration cfg cols count structural bending reinforcement drag (some tl) (some tr)
        s).pos (0 * 3 + k) = comp3 (smoothedOf s.smR tr) k ∧
      (relaxIteration cfg cols count structural bending reinforcement drag (some tl) (some tr)
        s).prev (0 * 3 + k) = comp3 (smoothedOf s.smR tr) k) := by
  rw [relaxIteration]
  dsimp only
  set b : SimState := ⟨relaxPass structural bending reinforcement cfg.stiffness s.pos, s.prev,
    s.smL, s.smR⟩ with hbdef
  set P : PState := ⟨(pinPhase cols drag (some tl) (some tr) b).pos,
    (pinPhase cols drag (some tl) (some tr) b).prev⟩ with hPdef
  have hD : ∀ j, j < 3 →
      P.pos (drag.vertexIndex * 3 + j) = comp3 (drag.tx, drag.ty, drag.tz) j ∧
      P.prev (drag.vertexIndex * 3 + j) = comp3 (drag.tx, drag.ty, drag.tz) j :=
    fun j hj => pinPhase_drag cols drag tl tr b hact hd0 hdc j hj
  have hL : ∀ j, j < 3 →
      P.pos ((cols - 1) * 3 + j) = comp3 (smoothedOf s.smL tl) j ∧
      P.prev ((cols - 1) * 3 + j) = comp3 (smoothedOf s.smL tl) j :=
    fun j hj => pinPhase_left cols drag tl tr b hcols j hj
  have hR : ∀ j, j < 3 →
      P.pos j = comp3 (smoothedOf s.smR tr) j ∧
      P.prev j = comp3 (smoothedOf s.smR tr) j :=
    fun j hj => pinPhase_right cols drag tl tr b j hj
  refine ⟨?_, ?_, ?_⟩
  · by_cases hdin : drag.vertexIndex < count
    · have h := collidePass_at cfg drag count P drag.vertexIndex hdin k hk
      have hskip : collideStep cfg drag (collidePass cfg drag drag.vertexIndex P)
          drag.vertexIndex = collidePass cfg drag drag.vertexIndex P := by
        rw [collideStep, if_pos ⟨hact, rfl⟩]
      constructor
      · rw [h.1, hskip, (collidePass_frame cfg drag drag.vertexIndex P _ (by omega)).1]
        exact (hD k hk).1
      · rw [h.2, hskip, (collidePass_frame cfg drag drag.vertexIndex P _ (by omega)).2]
        exact (hD k hk).2
    · constructor
      · rw [(collidePass_frame cfg drag count P _ (by omega)).1]
        exact (hD k hk).1
      · rw [(collidePass_frame cfg drag count P _ (by omega)).2]
        exact (hD k hk).2
  · have h := collidePass_at cfg drag count P (cols - 1) hcountc k hk
    have hm0 : (collidePass cfg drag (cols - 1) P).pos ((cols - 1) * 3) =
        P.pos ((cols - 1) * 3) :=
      (collidePass_frame cfg drag (cols - 1) P _ (by omega)).1
    have hm1 : (collidePass cfg drag (cols - 1) P).pos ((cols - 1) * 3 + 1) =
        P.pos ((cols - 1) * 3 + 1) :=
      (collidePass_frame cfg drag (cols - 1) P _ (by omega)).1
    have hm2 : (collidePass cfg drag (cols - 1) P).pos ((cols - 1) * 3 + 2) =
        P.pos ((cols - 1) * 3 + 2) :=
      (collidePass_frame cfg drag (cols - 1) P _ (by omega)).1
    have hq0 : P.pos ((cols - 1) * 3) = comp3 (smoothedOf s.smL tl) 0 := (hL 0 (by norm_num)).1
    have hq1 : P.pos ((cols - 1) * 3 + 1) = comp3 (smoothedOf s.smL tl) 1 :=
      (hL 1 (by norm_num)).1
    have hq2 : P.pos ((cols - 1) * 3 + 2) = comp3 (smoothedOf s.smL tl) 2 :=
      (hL 2 (by norm_num)).1
    have hid : collideStep cfg drag (collidePass cfg drag (cols - 1) P) (cols - 1) =
        collidePass cfg drag (cols - 1) P := by
      rw [collideStep]
      split_ifs with hsk
      · rfl
      · have hns : ¬ sphereDistSq cfg (collidePass cfg drag (cols - 1) P).pos (cols - 1) <
            (cfg.sphereRadius + 0.08) * (cfg.sphereRadius + 0.08) := by
          intro hlt
          refine hLs ?_
          simp only [sphereDistSq] at hlt
          rw [hm0, hm1, hm2, hq0, hq1, hq2, comp3_0, comp3_1, comp3_2] at hlt
          exact hlt
        rw [sphereResolve_no_contact cfg (collidePass cfg drag (cols - 1) P) (cols - 1) hns,
          floorResolve_above (collidePass cfg drag (cols - 1) P) (cols - 1)
            (by rw [hm1, hq1, comp3_1]; exact hLf)]
    constructor
    · rw [h.1, hid]
      rw [(collidePass_frame cfg drag (cols - 1) P _ (by omega)).1]
      exact (hL k hk).1
    · rw [h.2, hid]
      rw [(collidePass_frame cfg drag (cols - 1) P _ (by omega)).2]
      exact (hL k hk).2
  · have h := collidePass_at cfg drag count P 0 hcount0 k hk
    have hmid : collidePass cfg drag 0 P = P := rfl
    rw [hmid] at h
    have hp0 : P.pos 0 = comp3 (smoothedOf s.smR tr) 0 := (hR 0 (by norm_num)).1
    have hp1 : P.pos 1 = comp3 (smoothedOf s.smR tr) 1 := (hR 1 (by norm_num)).1
    have hp2 : P.pos 2 = comp3 (smoothedOf s.smR tr) 2 := (hR 2 (by norm_num)).1
    have hid : collideStep cfg drag P 0 = P := by
      rw [collideStep]
      split_ifs with hsk
      · rfl
      · have hns : ¬ sphereDistSq cfg P.pos 0 <
            (cfg.sphereRadius + 0.08) * (cfg.sphereRadius + 0.08) := by
          intro hlt
          refine hRs ?_
          simp only [sphereDistSq] at hlt
          have hp0X : (pinPhase cols drag (some tl) (some tr) b).pos (0 * 3) =
              comp3 (smoothedOf s.smR tr) 0 := by
            rw [show (0 * 3 : ℕ) = 0 by norm_num]
            exact hp0
          have hp1X : (pinPhase cols drag (some tl) (some tr) b).pos (0 * 3 + 1) =
              comp3 (smoothedOf s.smR tr) 1 := by
            rw [show (0 * 3 + 1 : ℕ) = 1 by norm_num]
            exact hp1
          have hp2X : (pinPhase cols drag (some tl) (some tr) b).pos (0 * 3 + 2) =
              comp3 (smoothedOf s.smR tr) 2 := by
            rw [show (0 * 3 + 2 : ℕ) = 2 by norm_num]
            exact hp2
          rw [hp0X, hp1X, hp2X, comp3_0, comp3_1, comp3_2] at hlt
          exact hlt
        rw [sphereResolve_no_contact cfg P 0 hns,
          floorResolve_above P 0
            (by rw [show (0 * 3 + 1 : ℕ) = 1 by norm_num, hp1, comp3_1]; exact hRf)]
    rw [hid] at h
    constructor
    · rw [h.1, show (0 * 3 + k : ℕ) = k from by omega]
      exact (hR k hk).1
    · rw [h.2, show (0 * 3 + k : ℕ) = k from by omega]
      exact (hR k hk).2

/-- The flat grid with the right pinch corner (particle 0 of the 3 by 3
grid) pinned to (0.5, 0, 0), inside the padded unit sphere. -/
noncomputable def pinnedC9 : ℕ → ℝ := upd (upd (upd flat4 0 0.5) 1 0) 2 0

theorem pinnedC9_0 : pinnedC9 0 = 0.5 := by
  rw [pinnedC9, upd_ne _ _ _ (by norm_num), upd_ne _ _ _ (by norm_num), upd_eq]

theorem pinnedC9_1 : pinnedC9 1 = 0 := by
  rw [pinnedC9, upd_ne _ _ _ (by norm_num), upd_eq]

theorem pinnedC9_2 : pinnedC9 2 = 0 := by
  rw [pinnedC9, upd_eq]

theorem pinnedC9_ge (n : ℕ) (h : 3 ≤ n) : pinnedC9 n = flat4 n := by
  rw [pinnedC9, upd_ne _ _ _ (by omega), upd_ne _ _ _ (by omega), upd_ne _ _ _ (by omega)]

theorem pinPhaseC9 :
    pinPhase 3 dragOff none (some ((0.5 : ℝ), (0 : ℝ), (0 : ℝ))) ⟨flat4, flat4, none, none⟩ =
      ⟨pinnedC9, pinnedC9, none, some (0.5, 0, 0)⟩ := by
  rw [pinPhase, applyDragPin, if_neg (by simp [dragOff])]
  simp only [applyLeftPinch, applyRightPinch, smoothedOf, getIdx]
  norm_num [pinnedC9]

/-- The pinned corner after its collision body: snapped onto the padded
sphere surface at (1.08, 0, 0). -/
noncomputable def snappedC9 : ℕ → ℝ := upd pinnedC9 0 1.08

theorem snappedC9_ge (n : ℕ) (h : 3 ≤ n) : snappedC9 n = flat4 n := by
  rw [snappedC9, upd_ne _ _ _ (by omega)]
  exact pinnedC9_ge n h

theorem distSqC9 : sphereDistSq cfgW pinnedC9 0 = 0.25 := by
  simp only [sphereDistSq, cfgW]
  norm_num [pinnedC9_0, pinnedC9_1, pinnedC9_2]

theorem collideStepC9_corner :
    collideStep cfgW dragOff ⟨pinnedC9, pinnedC9⟩ 0 = ⟨snappedC9, snappedC9⟩ := by
  have hin : sphereDistSq cfgW pinnedC9 0 <
      (cfgW.sphereRadius + 0.08) * (cfgW.sphereRadius + 0.08) := by
    rw [distSqC9]
    simp only [cfgW]
    norm_num
  have hfr : 0.60 ≤ (cfgW.clothFriction + cfgW.sphereFriction) * 0.5 := by
    simp only [cfgW]
    norm_num
  have hsq : Real.sqrt (sphereDistSq cfgW pinnedC9 0) = 0.5 := by
    rw [distSqC9]
    exact sqrt_of_sq (by norm_num) (by norm_num)
  have hc0 : center cfgW 0 = 0 := by simp [center, cfgW]
  have hc1 : center cfgW 1 = 0 := by simp [center, cfgW]
  have hc2 : center cfgW 2 = 0 := by simp [center, cfgW]
  have hn0 : normalComp cfgW pinnedC9 0 0 = 1 := by
    rw [normalComp, hsq, hc0]
    norm_num [pinnedC9_0]
  have hn1 : normalComp cfgW pinnedC9 0 1 = 0 := by
    rw [normalComp, hsq, hc1]
    norm_num [pinnedC9_1]
  have hn2 : normalComp cfgW pinnedC9 0 2 = 0 := by
    rw [normalComp, hsq, hc2]
    norm_num [pinnedC9_2]
  have snap := sphereResolve_snap cfgW ⟨pinnedC9, pinnedC9⟩ 0 hin hfr
  have h0 := snap 0 (by norm_num)
  have h1 := snap 1 (by norm_num)
  have h2 := snap 2 (by norm_num)
  rw [show (0 * 3 + 0 : ℕ) = 0 by norm_num, hc0, hn0] at h0
  rw [show (0 * 3 + 1 : ℕ) = 1 by norm_num, hc1, hn1] at h1
  rw [show (0 * 3 + 2 : ℕ) = 2 by norm_num, hc2, hn2] at h2
  rw [collideStep, if_neg (by simp [dragOff])]
  set S1 := sphereResolve cfgW ⟨pinnedC9, pinnedC9⟩ 0 with hS1def
  have hp0 : S1.pos 0 = 1.08 := by
    rw [h0.1]
    simp only [cfgW]
    norm_num
  have hp1 : S1.pos 1 = 0 := by
    rw [h1.1]
    norm_num
  have hp2 : S1.pos 2 = 0 := by
    rw [h2.1]
    norm_num
  have hq0 : S1.prev 0 = 1.08 := by rw [h0.2, hp0]
  have hq1 : S1.prev 1 = 0 := by rw [h1.2, hp1]
  have hq2 : S1.prev 2 = 0 := by rw [h2.2, hp2]
  have hfrm : ∀ n, n ≠ 0 → n ≠ 1 → n ≠ 2 →
      S1.pos n = pinnedC9 n ∧ S1.prev n = pinnedC9 n := by
    intro n a b c
    exact sphereResolve_frame cfgW ⟨pinnedC9, pinnedC9⟩ 0 n (by omega) (by omega) (by omega)
  have hnf : ¬ S1.pos (0 * 3 + 1) < -2.5 := by
    rw [show (0 * 3 + 1 : ℕ) = 1 by norm_num, hp1]
    norm_num
  rw [floorResolve_above S1 0 hnf]
  have hpos : S1.pos = snappedC9 := by
    funext n
    by_cases h0n : n = 0
    · subst h0n
      rw [hp0, snappedC9, upd_eq]
    · rw [snappedC9, upd_ne _ _ _ h0n]
      by_cases h1n : n = 1
      · subst h1n
        rw [hp1, pinnedC9_1]
      · by_cases h2n : n = 2
        · subst h2n
          rw [hp2, pinnedC9_2]
        · exact (hfrm n h0n h1n h2n).1
  have hprev : S1.prev = snappedC9 := by
    funext n
    by_cases h0n : n = 0
    · subst h0n
      rw [hq0, snappedC9, upd_eq]
    · rw [snappedC9, upd_ne _ _ _ h0n]
      by_cases h1n : n = 1
      · subst h1n
        rw [hq1, pinnedC9_1]
      · by_cases h2n : n = 2
        · subst h2n
          rw [hq2, pinnedC9_2]
        · exact (hfrm n h0n h1n h2n).2
  calc S1 = ⟨S1.pos, S1.prev⟩ := rfl
    _ = ⟨snappedC9, snappedC9⟩ := by rw [hpos, hprev]

theorem collidePassC9 :
    collidePass cfgW dragOff 9 ⟨pinnedC9, pinnedC9⟩ = ⟨snappedC9, snappedC9⟩ := by
  have nc : ∀ j : ℕ, j < 9 → 1 ≤ j →
      collideStep cfgW dragOff ⟨snappedC9, snappedC9⟩ j = ⟨snappedC9, snappedC9⟩ := by
    intro j hj hj1
    by_cases hj4 : j = 4
    · subst hj4
      exact flat4_clear4 cfgW rfl rfl rfl (by norm_num [cfgW]) ⟨snappedC9, snappedC9⟩
        (snappedC9_ge (4 * 3) (by norm_num)) (snappedC9_ge (4 * 3 + 1) (by norm_num))
        (snappedC9_ge (4 * 3 + 2) (by norm_num))
    · exact flat4_clear cfgW rfl rfl rfl (by norm_num [cfgW]) (by norm_num [cfgW]) j hj hj4
        ⟨snappedC9, snappedC9⟩ (snappedC9_ge (j * 3) (by omega))
        (snappedC9_ge (j * 3 + 1) (by omega)) (snappedC9_ge (j * 3 + 2) (by omega))
  have e0 : collidePass cfgW dragOff 0 ⟨pinnedC9, pinnedC9⟩ = ⟨pinnedC9, pinnedC9⟩ := rfl
  have e1 : collidePass cfgW dragOff 1 ⟨pinnedC9, pinnedC9⟩ = ⟨snappedC9, snappedC9⟩ := by
    rw [show (1 : ℕ) = 0 + 1 from rfl, collidePass_succ, e0, collideStepC9_corner]
  have e2 : collidePass cfgW dragOff 2 ⟨pinnedC9, pinnedC9⟩ = ⟨snappedC9, snappedC9⟩ := by
    rw [show (2 : ℕ) = 1 + 1 from rfl, collidePass_succ, e1, nc 1 (by norm_num) (by norm_num)]
  have e3 : collidePass cfgW dragOff 3 ⟨pinnedC9, pinnedC9⟩ = ⟨snappedC9, snappedC9⟩ := by
    rw [show (3 : ℕ) = 2 + 1 from rfl, collidePass_succ, e2, nc 2 (by norm_num) (by norm_num)]
  have e4 : collidePass cfgW dragOff 4 ⟨pinnedC9, pinnedC9⟩ = ⟨snappedC9, snappedC9⟩ := by
    rw [show (4 : ℕ) = 3 + 1 from rfl, collidePass_succ, e3, nc 3 (by norm_num) (by norm_num)]
  have e5 : collidePass cfgW dragOff 5 ⟨pinnedC9, pinnedC9⟩ = ⟨snappedC9, snappedC9⟩ := by
    rw [show (5 : ℕ) = 4 + 1 from rfl, collidePass_succ, e4, nc 4 (by norm_num) (by norm_num)]
  have e6 : collidePass cfgW dragOff 6 ⟨pinnedC9, pinnedC9⟩ = ⟨snappedC9, snappedC9⟩ := by
    rw [show (6 : ℕ) = 5 + 1 from rfl, collidePass_succ, e5, nc 5 (by norm_num) (by norm_num)]
  have e7 : collidePass cfgW dragOff 7 ⟨pinnedC9, pinnedC9⟩ = ⟨snappedC9, snappedC9⟩ := by
    rw [show (7 : ℕ) = 6 + 1 from rfl, collidePass_succ, e6, nc 6 (by norm_num) (by norm_num)]
  have e8 : collidePass cfgW dragOff 8 ⟨pinnedC9, pinnedC9⟩ = ⟨snappedC9, snappedC9⟩ := by
    rw [show (8 : ℕ) = 7 + 1 from rfl, collidePass_succ, e7, nc 7 (by norm_num) (by norm_num)]
  rw [show (9 : ℕ) = 8 + 1 from rfl, collidePass_succ, e8, nc 8 (by norm_num) (by norm_num)]

theorem relaxIterationC9 :
    relaxIteration cfgW 3 9 structC4 bendC4 reinC4 dragOff none
      (some ((0.5 : ℝ), (0 : ℝ), (0 : ℝ))) ⟨flat4, flat4, none, none⟩ =
      ⟨snappedC9, snappedC9, none, some (0.5, 0, 0)⟩ := by
  rw [relaxIteration]
  dsimp only
  rw [relaxPassC4_flat cfgW.stiffness, pinPhaseC9]
  dsimp only
  rw [collidePassC9]

/-- Counterexample to C9 as stated: pins do not take precedence over
collision corrections. With the right-hand pinch at (0.5, 0, 0), inside
the padded unit sphere, the pin phase writes the mapped corner particle
0 to the smoothed pinch target, but the collision pass of the same
relaxation iteration then snaps it onto the padded sphere surface: at
the end of the iteration the pinned corner sits at x = 1.08, not at its
pinch target x = 0.5. -/
theorem pinch_pin_overridden_by_collision :
    (relaxIteration cfgW 3 9 structC4 bendC4 reinC4 dragOff none
        (some ((0.5 : ℝ), (0 : ℝ), (0 : ℝ))) ⟨flat4, flat4, none, none⟩).pos 0 = 1.08 ∧
    smoothedOf none ((0.5 : ℝ), (0 : ℝ), (0 : ℝ)) = (0.5, 0, 0) ∧ ((1.08 : ℝ) ≠ 0.5) := by
  refine ⟨?_, rfl, by norm_num⟩
  rw [relaxIterationC9]
  show snappedC9 0 = 1.08
  rw [snappedC9, upd_eq]

/-- Active drag interaction pinning vertex 4 to (2, 3, 4). -/
noncomputable def dragW : Drag := ⟨true, 4, 2, 3, 4⟩

/-- Witness for C9 (amended): with the drag pinning vertex 4 and both
pinches at targets clear of the sphere and the floor, all three pinned
particles end the relaxation iteration exactly at their targets. -/
theorem pin_override_spec_witness :
    ((relaxIteration cfgW 3 9 structC4 bendC4 reinC4 dragW (some (5, 1, 5)) (some (-5, 1, -5))
        ⟨flat4, flat4, none, none⟩).pos (4 * 3 + 1) = 3 ∧
      (relaxIteration cfgW 3 9 structC4 bendC4 reinC4 dragW (some (5, 1, 5)) (some (-5, 1, -5))
        ⟨flat4, flat4, none, none⟩).prev (4 * 3 + 1) = 3) ∧
    ((relaxIteration cfgW 3 9 structC4 bendC4 reinC4 dragW (some (5, 1, 5)) (some (-5, 1, -5))
        ⟨flat4, flat4, none, none⟩).pos ((3 - 1) * 3 + 1) = 1 ∧
      (relaxIteration cfgW 3 9 structC4 bendC4 reinC4 dragW (some (5, 1, 5)) (some (-5, 1, -5))
        ⟨flat4, flat4, none, none⟩).prev ((3 - 1) * 3 + 1) = 1) ∧
    ((relaxIteration cfgW 3 9 structC4 bendC4 reinC4 dragW (some (5, 1, 5)) (some (-5, 1, -5))
        ⟨flat4, flat4, none, none⟩).pos (0 * 3 + 1) = 1 ∧
      (relaxIteration cfgW 3 9 structC4 bendC4 reinC4 dragW (some (5, 1, 5)) (some (-5, 1, -5))
        ⟨flat4, flat4, none, none⟩).prev (0 * 3 + 1) = 1) :=
  pin_override_spec cfgW 3 9 structC4 bendC4 reinC4 dragW (5, 1, 5) (-5, 1, -5)
    ⟨flat4, flat4, none, none⟩ (by norm_num) rfl (by norm_num [dragW]) (by norm_num [dragW])
    (by norm_num) (by norm_num)
    (by norm_num [clearOfSphere, smoothedOf, cfgW]) (by norm_num [smoothedOf])
    (by norm_num [clearOfSphere, smoothedOf, cfgW]) (by norm_num [smoothedOf]) 1 (by norm_num)

end FabricDraper
